import Mathlib

set_option maxRecDepth 8000

/-!
Verification of the faktoor.js core against its specification.

JavaScript strings are modelled as `String` where only whole-string
comparison matters and as `List Char` where character-level scanning
matters.  Numbers that only ever hold integral millisecond counts are
modelled as `Nat`/`ℚ`.
-/

namespace Faktoor

/-! ## Retry policy (packages/core/src/client.ts) -/

/-- The `backoff` field of `RetryConfig`: `'exponential' | 'fixed' | 'none'`. -/
inductive Backoff where
  | exponential
  | fixed
  | none
deriving DecidableEq, Repr

/-- `RetryConfig` from client.ts.  Delays are rationals so that the 10%
jitter factor of the exponential branch is representable exactly. -/
structure RetryConfig where
  attempts : Nat
  backoff : Backoff
  initialDelay : ℚ
  maxDelay : ℚ
deriving DecidableEq, Repr

/-- `getDelay(attempt, config)` from client.ts.  `Math.random()` is made an
explicit argument `rand` (the value in `[0,1)` the call would return). -/
def getDelay (attempt : Nat) (config : RetryConfig) (rand : ℚ) : ℚ :=
  match config.backoff with
  | .none => 0
  | .fixed => config.initialDelay
  | .exponential =>
      let delay := min (config.initialDelay * 2 ^ attempt) config.maxDelay
      let jitter := delay * (1/10) * rand
      delay + jitter

/-- A value thrown by the wrapped operation, as far as `withRetry` inspects
it: `retryable = none` models an error object without a `retryable`
property (`'retryable' in error` is false). -/
structure ThrownError where
  retryable : Option Bool
deriving DecidableEq, Repr

/-- The non-retryable fast path of `withRetry`:
`error instanceof Error && 'retryable' in error && !error.retryable`. -/
def nonRetryable (e : ThrownError) : Bool :=
  match e.retryable with
  | some false => true
  | _ => false

/-- The `for (let attempt = 0; attempt < config.attempts; attempt++)` loop of
`withRetry` in client.ts.  `outcomes i` is the result of the `i`-th
invocation of `fn`; the returned `Nat` counts how many invocations were
made.  `Except.error none` models `throw lastError` with `lastError`
still `undefined` (loop never entered). -/
def withRetryGo (outcomes : Nat → Except ThrownError α) (attempts attempt : Nat)
    (lastError : Option ThrownError) : Except (Option ThrownError) α × Nat :=
  if attempt < attempts then
    match outcomes attempt with
    | .ok v => (.ok v, attempt + 1)
    | .error e =>
        if nonRetryable e then (.error (some e), attempt + 1)
        else withRetryGo outcomes attempts (attempt + 1) (some e)
  else (.error lastError, attempt)
termination_by attempts - attempt

/-- `withRetry(fn, config)` from client.ts for an enabled retry config
(the `config === false` bypass is not taken).  The `sleep(getDelay …)`
between attempts does not affect the returned value or the invocation
count, so time is not modelled here. -/
def withRetry (outcomes : Nat → Except ThrownError α) (config : RetryConfig) :
    Except (Option ThrownError) α × Nat :=
  withRetryGo outcomes config.attempts 0 Option.none

/-! ## Gmail label / folder mapping (packages/gmail/src/parser.ts) -/

/-- The closed folder-type enumeration of the return type of
`labelToFolderType`. -/
inductive FolderType where
  | inbox
  | sent
  | drafts
  | trash
  | spam
  | archive
  | custom
deriving DecidableEq, Repr

/-- `labelToFolderType(labelId)` from parser.ts (the `switch` statement). -/
def labelToFolderType (labelId : String) : FolderType :=
  if labelId = "INBOX" then .inbox
  else if labelId = "SENT" then .sent
  else if labelId = "DRAFT" then .drafts
  else if labelId = "TRASH" then .trash
  else if labelId = "SPAM" then .spam
  else .custom

/-- The label argument of `labelToFolder` (id, name, type and the two
optional counters). -/
structure LabelInfo where
  id : String
  name : String
  type : String
  messagesTotal : Option Nat
  messagesUnread : Option Nat
deriving DecidableEq, Repr

/-- The canonical `Folder` as produced by `labelToFolder` (the `children`
field is never set there). -/
structure Folder where
  name : String
  path : String
  type : FolderType
  totalCount : Nat
  unreadCount : Nat
deriving DecidableEq, Repr

/-- `labelToFolder(label)` from parser.ts. -/
def labelToFolder (label : LabelInfo) : Folder :=
  { name := label.name
    path := label.id
    type := labelToFolderType label.id
    totalCount := label.messagesTotal.getD 0
    unreadCount := label.messagesUnread.getD 0 }

/-- The five wire label ids that `parseGmailMessage` treats as folders. -/
def folderLabelIds : List String := ["INBOX", "SENT", "DRAFT", "TRASH", "SPAM"]

/-- The folder computation of `parseGmailMessage` (parser.ts lines 201-202):
`labelIds.find((l) => ['INBOX','SENT','DRAFT','TRASH','SPAM'].includes(l)) ?? 'INBOX'`. -/
def folderFromLabels (labelIds : List String) : String :=
  (labelIds.find? (fun l => folderLabelIds.contains l)).getD "INBOX"

/-! ## Error taxonomy (packages/core/src/errors.ts) and Gmail error
handling (packages/gmail/src/api.ts) -/

/-- A thrown JavaScript error object as far as the Gmail API layer
inspects it.  `classChain` is the prototype chain (the list of class
names an `instanceof` test would succeed for), `cause` the wrapped
error. -/
inductive JsError where
  | mk (classChain : List String) (code : String) (retryable : Bool)
       (retryAfter : Option Nat) (provider : Option String)
       (message : String) (cause : Option JsError)

def JsError.classChain : JsError → List String
  | .mk c _ _ _ _ _ _ => c

def JsError.code : JsError → String
  | .mk _ c _ _ _ _ _ => c

def JsError.retryable : JsError → Bool
  | .mk _ _ r _ _ _ _ => r

def JsError.retryAfter : JsError → Option Nat
  | .mk _ _ _ r _ _ _ => r

def JsError.message : JsError → String
  | .mk _ _ _ _ _ m _ => m

def JsError.cause : JsError → Option JsError
  | .mk _ _ _ _ _ _ c => c

/-- `new AuthenticationError(message, cause?)` from errors.ts:
code `AUTH_ERROR`, `retryable = false`, extends `FaktoorError`. -/
def authenticationError (message : String) (cause : Option JsError := none) : JsError :=
  .mk ["AuthenticationError", "FaktoorError", "Error"] "AUTH_ERROR" false none none
    message cause

/-- `new RateLimitError(message, retryAfter?, cause?)` from errors.ts:
code `RATE_LIMIT`, `retryable = true`, carries `retryAfter`
milliseconds. -/
def rateLimitError (message : String) (retryAfter : Option Nat)
    (cause : Option JsError := none) : JsError :=
  .mk ["RateLimitError", "FaktoorError", "Error"] "RATE_LIMIT" true retryAfter none
    message cause

/-- `new NetworkError(message, cause?)` from errors.ts: code
`NETWORK_ERROR`, `retryable = true`. -/
def networkError (message : String) (cause : Option JsError := none) : JsError :=
  .mk ["NetworkError", "FaktoorError", "Error"] "NETWORK_ERROR" true none none
    message cause

/-- `new ProviderError(provider, message, options?)` from errors.ts:
code `PROVIDER_ERROR`, `retryable` from the options (default false). -/
def providerError (provider message : String) (retryable : Bool := false)
    (cause : Option JsError := none) : JsError :=
  .mk ["ProviderError", "FaktoorError", "Error"] "PROVIDER_ERROR" retryable none
    (some provider) message cause

/-- `GmailApi.handleError(response)` from api.ts, as a function of the
response status, the numeric value of the `Retry-After` header when
present, and the message extracted from the error body (or the status
text).  The Retry-After branch models
`Number.parseInt(retryAfter, 10) * 1000` for a numeric header value. -/
def handleError (status : Nat) (retryAfterHeader : Option Nat) (message : String) :
    JsError :=
  if status = 401 then authenticationError message
  else if status = 429 then rateLimitError message (retryAfterHeader.map (· * 1000))
  else if status = 403 then authenticationError ("Access denied: " ++ message)
  else if status = 404 then providerError "gmail" ("Not found: " ++ message)
  else providerError "gmail" message (decide (500 ≤ status))

/-- The `error instanceof FaktoorApiError` test in `GmailApi.request`,
where `FaktoorApiError` is the helper class declared at the bottom of
api.ts (`class FaktoorApiError extends Error {}`). -/
def instanceOfFaktoorApiError (e : JsError) : Bool :=
  e.classChain.contains "FaktoorApiError"

/-- The error that `GmailApi.request` raises to its caller when the
response is not ok: `handleError` throws inside the `try`, and the
`catch` re-throws it only when it is `instanceof FaktoorApiError`,
otherwise wraps it in `new NetworkError('Failed to connect to Gmail
API', error)`. -/
def requestFailure (status : Nat) (retryAfterHeader : Option Nat) (message : String) :
    JsError :=
  let error := handleError status retryAfterHeader message
  if instanceOfFaktoorApiError error then error
  else networkError "Failed to connect to Gmail API" (some error)

/-! ## Streaming (GmailProvider.stream, packages/gmail/src/provider.ts)

The async generator is embedded as the trace of backend events its body
produces.  Because an async generator suspends at each `yield` and runs
further only when the consumer requests the next element, a consumer
that stops after `k` items has executed exactly the prefix of the trace
up to and including the `k`-th yield event. -/

/-- Backend events produced by `GmailProvider.stream`: a
`messages.list` page request, a `messages.get` detail request, and the
yield of one parsed email. -/
inductive StreamEv where
  | fetch
  | getMsg (id : String)
  | yieldMsg (id : String)
deriving DecidableEq, Repr

/-- The full event trace of the `do … while (pageToken)` loop in
`GmailProvider.stream` over a well-formed paginated source: `pages` is
the sequence of `messages.list` responses, and the backend returns a
`nextPageToken` exactly on the non-final responses.  Each iteration
issues one list request, breaks if the page is empty, and otherwise
fetches and yields each message in order before following the
continuation token. -/
def streamTrace : List (List String) → List StreamEv
  | [] => []
  | msgs :: rest =>
      StreamEv.fetch ::
        (if msgs = [] then []
         else
           (msgs.flatMap fun m => [StreamEv.getMsg m, StreamEv.yieldMsg m]) ++
             (if rest.isEmpty then [] else streamTrace rest))

/-- The events executed when the consumer stops after receiving `k`
items: the trace prefix up to and including the `k`-th yield. -/
def prefixUpToYield : Nat → List StreamEv → List StreamEv
  | 0, _ => []
  | _ + 1, [] => []
  | k + 1, StreamEv.yieldMsg m :: rest => StreamEv.yieldMsg m :: prefixUpToYield k rest
  | k + 1, StreamEv.fetch :: rest => StreamEv.fetch :: prefixUpToYield (k + 1) rest
  | k + 1, StreamEv.getMsg m :: rest => StreamEv.getMsg m :: prefixUpToYield (k + 1) rest

/-- Number of page-list requests in a trace. -/
def countFetch (tr : List StreamEv) : Nat :=
  tr.countP (fun e => decide (e = StreamEv.fetch))

/-- Number of yields in a trace. -/
def countYield (tr : List StreamEv) : Nat :=
  tr.countP (fun e =>
    match e with
    | StreamEv.yieldMsg _ => true
    | _ => false)

/-- Index (1-based) of the page that contains the `k`-th item of the
paginated source. -/
def pageOfItem : List (List String) → Nat → Nat
  | [], _ => 0
  | msgs :: rest, k => if k ≤ msgs.length then 1 else 1 + pageOfItem rest (k - msgs.length)

/-! ## Base64url codec (packages/parser/src/index.ts)

`encodeBase64Url` produces the base64 of the UTF-8 bytes of the input
(`btoa(unescape(encodeURIComponent(data)))` in the browser,
`Buffer.from(data).toString('base64')` in Node — both are base64 over
UTF-8 bytes), then applies `+`→`-`, `/`→`_` and strips trailing `=`.
`decodeBase64Url` restores the alphabet and the modulo-4 padding and
decodes (`Buffer.from(padded,'base64').toString('utf-8')`).  JS strings
are sequences of Unicode scalar values here, so they are modelled as
`List Char`; the byte layer is `List Nat`. -/

/-- UTF-8 encoding of one Unicode scalar value. -/
def utf8EncodeChar (c : Nat) : List Nat :=
  if c < 0x80 then [c]
  else if c < 0x800 then [0xC0 + c / 64, 0x80 + c % 64]
  else if c < 0x10000 then [0xE0 + c / 4096, 0x80 + c / 64 % 64, 0x80 + c % 64]
  else [0xF0 + c / 262144, 0x80 + c / 4096 % 64, 0x80 + c / 64 % 64, 0x80 + c % 64]

/-- UTF-8 bytes of a string. -/
def utf8Encode (s : List Char) : List Nat :=
  s.flatMap fun c => utf8EncodeChar c.toNat

/-- One step of UTF-8 decoding: given a lead byte and the remaining
bytes, the decoded code point and the number of continuation bytes it
consumed.  Malformed sequences yield U+FFFD as the platform decoder
does. -/
def utf8Step (b : Nat) (bs : List Nat) : Nat × Nat :=
  if b < 0x80 then (b, 0)
  else if b < 0xC0 then (0xFFFD, 0)
  else if b < 0xE0 then
    match bs with
    | b2 :: _ =>
        if 0x80 ≤ b2 ∧ b2 < 0xC0 then ((b - 0xC0) * 64 + (b2 - 0x80), 1)
        else (0xFFFD, 0)
    | [] => (0xFFFD, 0)
  else if b < 0xF0 then
    match bs with
    | b2 :: b3 :: _ =>
        if (0x80 ≤ b2 ∧ b2 < 0xC0) ∧ (0x80 ≤ b3 ∧ b3 < 0xC0) then
          ((b - 0xE0) * 4096 + (b2 - 0x80) * 64 + (b3 - 0x80), 2)
        else (0xFFFD, 0)
    | _ => (0xFFFD, bs.length)
  else
    match bs with
    | b2 :: b3 :: b4 :: _ =>
        if (0x80 ≤ b2 ∧ b2 < 0xC0) ∧ (0x80 ≤ b3 ∧ b3 < 0xC0) ∧
            (0x80 ≤ b4 ∧ b4 < 0xC0) then
          ((b - 0xF0) * 262144 + (b2 - 0x80) * 4096 + (b3 - 0x80) * 64 + (b4 - 0x80), 3)
        else (0xFFFD, 0)
    | _ => (0xFFFD, bs.length)

/-- UTF-8 decoding to code points.  On well-formed input (the only
inputs the theorems evaluate it on) this is the inverse of
`utf8Encode`. -/
def utf8Decode : List Nat → List Nat
  | [] => []
  | b :: bs => (utf8Step b bs).1 :: utf8Decode (bs.drop (utf8Step b bs).2)
termination_by bs => bs.length
decreasing_by simp [List.length_drop]; omega

/-- UTF-8 decoding back to a string. -/
def utf8DecodeChars (bs : List Nat) : List Char :=
  (utf8Decode bs).map Char.ofNat

/-- The standard base64 alphabet. -/
def b64Alphabet : List Char :=
  "ABCDEFGHIJKLMNOPQRSTUVWXYZabcdefghijklmnopqrstuvwxyz0123456789+/".toList

/-- Character for a sextet value. -/
def b64Char (n : Nat) : Char :=
  b64Alphabet.getD n 'A'

def b64ValAux : List Char → Nat → Char → Option Nat
  | [], _, _ => none
  | a :: as, i, c => if a = c then some i else b64ValAux as (i + 1) c

/-- Sextet value of an alphabet character. -/
def b64Val (c : Char) : Option Nat :=
  b64ValAux b64Alphabet 0 c

/-- Standard base64 of a byte sequence, with `=` padding. -/
def b64EncodeBytes : List Nat → List Char
  | [] => []
  | [b1] => [b64Char (b1 / 4), b64Char (b1 % 4 * 16), '=', '=']
  | [b1, b2] =>
      [b64Char (b1 / 4), b64Char (b1 % 4 * 16 + b2 / 16), b64Char (b2 % 16 * 4), '=']
  | b1 :: b2 :: b3 :: rest =>
      b64Char (b1 / 4) :: b64Char (b1 % 4 * 16 + b2 / 16) ::
        b64Char (b2 % 16 * 4 + b3 / 64) :: b64Char (b3 % 64) :: b64EncodeBytes rest

/-- Standard base64 decoding of a padded sequence (the platform
primitive behind `Buffer.from(padded, 'base64')` / `atob(padded)` on
well-formed input). -/
def b64DecodeChars : List Char → List Nat
  | c1 :: c2 :: c3 :: c4 :: rest =>
      match b64Val c1, b64Val c2 with
      | some v1, some v2 =>
          if c3 = '=' then [v1 * 4 + v2 / 16]
          else
            match b64Val c3 with
            | some v3 =>
                if c4 = '=' then [v1 * 4 + v2 / 16, v2 % 16 * 16 + v3 / 4]
                else
                  match b64Val c4 with
                  | some v4 =>
                      (v1 * 4 + v2 / 16) :: (v2 % 16 * 16 + v3 / 4) ::
                        (v3 % 4 * 64 + v4) :: b64DecodeChars rest
                  | none => []
            | none => []
      | _, _ => []
  | _ => []

def plusToDash (c : Char) : Char := if c = '+' then '-' else c

def slashToUnderscore (c : Char) : Char := if c = '/' then '_' else c

def dashToPlus (c : Char) : Char := if c = '-' then '+' else c

def underscoreToSlash (c : Char) : Char := if c = '_' then '/' else c

/-- The global replacement of `+` by `-`, then of `/` by `_`. -/
def toUrlSafe (l : List Char) : List Char :=
  (l.map plusToDash).map slashToUnderscore

/-- The global replacement of `-` by `+`, then of `_` by `/`. -/
def fromUrlSafe (l : List Char) : List Char :=
  (l.map dashToPlus).map underscoreToSlash

/-- The global replacement of a trailing run of `=` by nothing. -/
def stripTrailingEq (l : List Char) : List Char :=
  (l.reverse.dropWhile fun c => c = '=').reverse

/-- `'='.repeat((4 - (base64.length % 4)) % 4)` appended. -/
def padB64 (l : List Char) : List Char :=
  l ++ List.replicate ((4 - l.length % 4) % 4) '='

/-- `encodeBase64Url(data)` from packages/parser/src/index.ts. -/
def encodeBase64Url (s : List Char) : List Char :=
  stripTrailingEq (toUrlSafe (b64EncodeBytes (utf8Encode s)))

/-- `decodeBase64Url(data)` from packages/parser/src/index.ts (the same
pipeline implements `decodeBase64Url` in packages/gmail/src/parser.ts on
the Node path). -/
def decodeBase64Url (s : List Char) : List Char :=
  utf8DecodeChars (b64DecodeChars (padB64 (fromUrlSafe s)))

/-! ## Body extraction (extractBody, packages/gmail/src/parser.ts)

A `GmailMessagePart` is a tree: `mimeType` and `body.data` are
optional, and `parts` is either absent (`undefined`) or an array of
sub-parts (possibly empty — an empty array is truthy in JS and is
recursed into). -/

mutual
inductive GPart where
  | node (mimeType : Option (List Char)) (bodyData : Option (List Char))
      (parts : GPartsOpt)

inductive GPartsOpt where
  | undef
  | arr (ps : GParts)

inductive GParts where
  | nil
  | cons (hd : GPart) (tl : GParts)
end

/-- JS truthiness of `part.body?.data`: present and non-empty. -/
def truthyStr : Option (List Char) → Bool
  | some d => !d.isEmpty
  | none => false

/-- The canonical `EmailBody`: `html` is `null` when no HTML part was
seen, `text` defaults to the empty string. -/
structure EmailBody where
  html : Option (List Char)
  text : List Char
deriving DecidableEq, Repr

mutual
/-- `processpart(part)` from `extractBody` in parser.ts, as a state
transformer on the `(html, text)` accumulator: a `text/html` part with
truthy inline data overwrites `html`, else a `text/plain` part with
truthy inline data overwrites `text`, else a part with a `parts` array
is recursed into child by child. -/
def processPart (st : EmailBody) (p : GPart) : EmailBody :=
  match p with
  | .node mt bd parts =>
      if mt = some ("text/html".toList) ∧ truthyStr bd then
        { st with html := some (decodeBase64Url (bd.getD [])) }
      else if mt = some ("text/plain".toList) ∧ truthyStr bd then
        { st with text := decodeBase64Url (bd.getD []) }
      else
        match parts with
        | .undef => st
        | .arr ps => processParts st ps

/-- The `for (const subpart of part.parts)` loop. -/
def processParts (st : EmailBody) (ps : GParts) : EmailBody :=
  match ps with
  | .nil => st
  | .cons h t => processParts (processPart st h) t
end

/-- `extractBody(payload)` from parser.ts. -/
def extractBody (payload : Option GPart) : EmailBody :=
  match payload with
  | none => { html := none, text := [] }
  | some p => processPart { html := none, text := [] } p

mutual
/-- The decoded contents of the `text/html` leaves that `processPart`
visits, in visit (depth-first document) order. -/
def htmlLeaves (p : GPart) : List (List Char) :=
  match p with
  | .node mt bd parts =>
      if mt = some ("text/html".toList) ∧ truthyStr bd then
        [decodeBase64Url (bd.getD [])]
      else if mt = some ("text/plain".toList) ∧ truthyStr bd then []
      else
        match parts with
        | .undef => []
        | .arr ps => htmlLeavesList ps

def htmlLeavesList (ps : GParts) : List (List Char) :=
  match ps with
  | .nil => []
  | .cons h t => htmlLeaves h ++ htmlLeavesList t
end

mutual
/-- The decoded contents of the `text/plain` leaves that `processPart`
visits, in visit (depth-first document) order. -/
def plainLeaves (p : GPart) : List (List Char) :=
  match p with
  | .node mt bd parts =>
      if mt = some ("text/html".toList) ∧ truthyStr bd then []
      else if mt = some ("text/plain".toList) ∧ truthyStr bd then
        [decodeBase64Url (bd.getD [])]
      else
        match parts with
        | .undef => []
        | .arr ps => plainLeavesList ps

def plainLeavesList (ps : GParts) : List (List Char) :=
  match ps with
  | .nil => []
  | .cons h t => plainLeaves h ++ plainLeavesList t
end

/-! ## Address parsing (packages/parser/src/index.ts)

`parseAddress` matches the anchored regex

    (quote? name-group:[^"<]* quote? ws*)? angle? ([^>@ws]+ @ [^>@ws]+) angle?

against the trimmed input, with JavaScript backtracking order: each
quantifier prefers its greedy choice, the most recently made choice is
reconsidered first, and the whole optional name group is skipped only
after all of its internal choices fail.  The matcher below enumerates
the choice points of the concrete pattern in exactly that order. -/

/-- The ECMAScript whitespace class (`\s`, also the set trimmed by
`String.prototype.trim`). -/
def jsWhitespace (c : Char) : Bool :=
  c.toNat = 9 || c.toNat = 10 || c.toNat = 11 || c.toNat = 12 || c.toNat = 13 ||
  c.toNat = 32 || c.toNat = 0xA0 || c.toNat = 0x1680 ||
  (0x2000 ≤ c.toNat && c.toNat ≤ 0x200A) || c.toNat = 0x2028 || c.toNat = 0x2029 ||
  c.toNat = 0x202F || c.toNat = 0x205F || c.toNat = 0x3000 || c.toNat = 0xFEFF

/-- `String.prototype.trim`. -/
def jsTrim (l : List Char) : List Char :=
  ((l.dropWhile jsWhitespace).reverse.dropWhile jsWhitespace).reverse

/-- The canonical `Address`: `name = none` models an absent (`undefined`)
name. -/
structure Address where
  email : List Char
  name : Option (List Char)
deriving DecidableEq, Repr

/-- `formatAddress(address)` from packages/parser/src/index.ts:
`address.name` truthy (present and non-empty) gives `"name" <email>`,
otherwise the bare email. -/
def formatAddress (a : Address) : List Char :=
  match a.name with
  | some n =>
      if n.isEmpty then a.email
      else '"' :: (n ++ '"' :: ' ' :: '<' :: (a.email ++ ['>']))
  | none => a.email

/-- The character class `[^"<]` of the display-name group. -/
def nameChar (c : Char) : Bool := !(c = '"' || c = '<')

/-- The character class `[^>@\s]` of the two email-part runs. -/
def emailChar (c : Char) : Bool := !(c = '>' || c = '@' || jsWhitespace c)

/-- The suffix of the pattern `([^>@\s]+@[^>@\s]+)>?$` starting at the
email capture.  Both `+` runs are effectively deterministic (shrinking a
run leaves a class character where a non-class literal must match), so
the maximal runs are taken; the returned value is the captured email. -/
def matchEmailCore (cs : List Char) : Option (List Char) :=
  if (cs.takeWhile emailChar).isEmpty then none
  else
    match cs.dropWhile emailChar with
    | '@' :: rest2 =>
        if (rest2.takeWhile emailChar).isEmpty then none
        else
          match rest2.dropWhile emailChar with
          | [] => some (cs.takeWhile emailChar ++ '@' :: rest2.takeWhile emailChar)
          | ['>'] => some (cs.takeWhile emailChar ++ '@' :: rest2.takeWhile emailChar)
          | _ => none
    | _ => none

/-- The pattern suffix `<?([^>@\s]+@[^>@\s]+)>?$`: the optional `<`
prefers to consume. -/
def matchTail (cs : List Char) : Option (List Char) :=
  match cs with
  | '<' :: rest => (matchEmailCore rest).orElse fun _ => matchEmailCore cs
  | _ => matchEmailCore cs

/-- Choice points of `"?`: consume the quote if present (preferred),
else continue in place. -/
def optQuote (cs : List Char) : List (List Char) :=
  match cs with
  | '"' :: rest => [rest, cs]
  | _ => [cs]

/-- Choice points of a greedy `p*` with capture: the prefixes of the
maximal run, longest first, paired with the corresponding rest. -/
def starSplits (p : Char → Bool) (cs : List Char) : List (List Char × List Char) :=
  ((List.range ((cs.takeWhile p).length + 1)).reverse).map fun k =>
    (cs.take k, cs.drop k)

/-- Choice points of the non-capturing greedy `\s*`. -/
def wsSplits (cs : List Char) : List (List Char) :=
  ((List.range ((cs.takeWhile jsWhitespace).length + 1)).reverse).map fun k =>
    cs.drop k

/-- Choice points of the body of `(?:"?([^"<]*)"?\s*)`, in backtracking
order (leftmost quantifier most significant, rightmost reconsidered
first): each candidate is a captured group-1 value with the rest of the
input. -/
def nameGroupChoices (cs : List Char) : List (List Char × List Char) :=
  (optQuote cs).flatMap fun cs1 =>
    (starSplits nameChar cs1).flatMap fun g =>
      (optQuote g.2).flatMap fun cs3 =>
        (wsSplits cs3).map fun cs4 => (g.1, cs4)

/-- The full anchored match of
`^(?:"?([^"<]*)"?\s*)?<?([^>@\s]+@[^>@\s]+)>?$`: the first
in-preference-order success, returning (group 1, group 2); skipping the
optional group entirely is the last alternative. -/
def parseMatch (cs : List Char) : Option (Option (List Char) × List Char) :=
  (((nameGroupChoices cs).map fun g =>
      (matchTail g.2).map fun e => (some g.1, e)).findSome? id).orElse
    fun _ => (matchTail cs).map fun e => ((none : Option (List Char)), e)

/-- `parseAddress(raw)` from packages/parser/src/index.ts: on match
failure the trimmed input becomes the email; on success the email
capture is trimmed and the name capture is trimmed with an empty result
normalized to `undefined`. -/
def parseAddress (raw : List Char) : Address :=
  match parseMatch (jsTrim raw) with
  | none => { email := jsTrim raw, name := none }
  | some (g1, email) =>
      { email := jsTrim email
        name :=
          match g1 with
          | none => none
          | some n => if (jsTrim n).isEmpty then none else some (jsTrim n) }

/-! ## htmlToText (packages/parser/src/index.ts)

The function is a chain of global regex replacements.  Each pattern in
the chain is either a fixed literal or has deterministic quantifiers
(a greedy run followed by a literal that the run's class excludes), so
each replacement is embedded as a left-to-right scanner that at every
position either consumes a whole match or emits one character. -/

/-- ASCII lower-casing, for the `i` regex flag (all pattern letters are
ASCII). -/
def lowerChar (c : Char) : Char :=
  if 'A' ≤ c ∧ c ≤ 'Z' then Char.ofNat (c.toNat + 32) else c

/-- Case-insensitive prefix test: `pat` (given in lowercase) leads the
input. -/
def leadsCI : List Char → List Char → Bool
  | [], _ => true
  | _ :: _, [] => false
  | p :: ps, c :: cs => lowerChar c = p && leadsCI ps cs

/-- Index of the first case-insensitive occurrence of `pat`. -/
def closerIdx (pat : List Char) : List Char → Option Nat
  | [] => if leadsCI pat [] then some 0 else none
  | c :: rest =>
      if leadsCI pat (c :: rest) then some 0
      else (closerIdx pat rest).map (· + 1)

/-- Length of a `<tag[^>]*>[\s\S]*?</tag>` match (case-insensitive)
starting at the current position: the literal `<tag`, the greedy run of
non-`>` characters, the `>`, then the lazy body up to the first
case-insensitive `</tag>`. -/
def tagBlockLen (tag : List Char) (cs : List Char) : Option Nat :=
  if leadsCI ('<' :: tag) cs then
    match (cs.drop (tag.length + 1)).drop
        ((cs.drop (tag.length + 1)).takeWhile (fun x => x ≠ '>')).length with
    | '>' :: rest2 =>
        match closerIdx ('<' :: '/' :: (tag ++ ['>'])) rest2 with
        | some i =>
            some (tag.length + 1 +
              ((cs.drop (tag.length + 1)).takeWhile (fun x => x ≠ '>')).length + 1 +
              i + (tag.length + 3))
        | none => none
    | _ => none
  else none

/-- Global removal of `<tag[^>]*>…</tag>` blocks: the first two
`.replace` steps of `htmlToText` (style and script). -/
def stripTagBlocks (tag : List Char) : List Char → List Char
  | [] => []
  | c :: cs =>
      match tagBlockLen tag (c :: cs) with
      | some n => stripTagBlocks tag (cs.drop (n - 1))
      | none => c :: stripTagBlocks tag cs
termination_by cs => cs.length
decreasing_by all_goals simp [List.length_drop] <;> omega

/-- Length of a `<br\s*\/?>` match (case-insensitive). -/
def brMatchLen (cs : List Char) : Option Nat :=
  if leadsCI ['<', 'b', 'r'] cs then
    match (cs.drop 3).drop ((cs.drop 3).takeWhile jsWhitespace).length with
    | '/' :: '>' :: _ => some (3 + ((cs.drop 3).takeWhile jsWhitespace).length + 2)
    | '>' :: _ => some (3 + ((cs.drop 3).takeWhile jsWhitespace).length + 1)
    | _ => none
  else none

/-- The `<br\s*\/?>` → `\n` replacement. -/
def replaceBr : List Char → List Char
  | [] => []
  | c :: cs =>
      match brMatchLen (c :: cs) with
      | some n => '\n' :: replaceBr (cs.drop (n - 1))
      | none => c :: replaceBr cs
termination_by cs => cs.length
decreasing_by all_goals simp [List.length_drop] <;> omega

/-- Global case-insensitive replacement of a fixed literal pattern
(the `</p>`, `</div>`, `</li>` steps). -/
def replaceAllCI (pat repl : List Char) : List Char → List Char
  | [] => []
  | c :: cs =>
      if pat.isEmpty then c :: cs
      else if leadsCI pat (c :: cs) then
        repl ++ replaceAllCI pat repl (cs.drop (pat.length - 1))
      else c :: replaceAllCI pat repl cs
termination_by cs => cs.length
decreasing_by all_goals simp [List.length_drop] <;> omega

/-- Length of a `<li[^>]*>` match (case-insensitive). -/
def liMatchLen (cs : List Char) : Option Nat :=
  if leadsCI ['<', 'l', 'i'] cs then
    match (cs.drop 3).drop ((cs.drop 3).takeWhile (fun x => x ≠ '>')).length with
    | '>' :: _ => some (3 + ((cs.drop 3).takeWhile (fun x => x ≠ '>')).length + 1)
    | _ => none
  else none

/-- The `<li[^>]*>` → bullet replacement.  The replacement string is
the exact character content of the source file (a double-encoded
bullet). -/
def replaceOpenLi : List Char → List Char
  | [] => []
  | c :: cs =>
      match liMatchLen (c :: cs) with
      | some n => "â€¢ ".toList ++ replaceOpenLi (cs.drop (n - 1))
      | none => c :: replaceOpenLi cs
termination_by cs => cs.length
decreasing_by all_goals simp [List.length_drop] <;> omega

/-- Length of a `<[^>]+>` match. -/
def tagMatchLen (cs : List Char) : Option Nat :=
  match cs with
  | '<' :: rest =>
      if (rest.takeWhile (fun x => x ≠ '>')).isEmpty then none
      else
        match rest.drop (rest.takeWhile (fun x => x ≠ '>')).length with
        | '>' :: _ => some (1 + (rest.takeWhile (fun x => x ≠ '>')).length + 1)
        | _ => none
  | _ => none

/-- The `<[^>]+>` → `''` removal of all remaining tags. -/
def stripTags : List Char → List Char
  | [] => []
  | c :: cs =>
      match tagMatchLen (c :: cs) with
      | some n => stripTags (cs.drop (n - 1))
      | none => c :: stripTags cs
termination_by cs => cs.length
decreasing_by all_goals simp [List.length_drop] <;> omega

/-- Global case-sensitive replacement of a fixed literal pattern (the
five named-entity steps). -/
def replaceAll (pat repl : List Char) : List Char → List Char
  | [] => []
  | c :: cs =>
      if pat.isEmpty then c :: cs
      else if pat.isPrefixOf (c :: cs) then
        repl ++ replaceAll pat repl (cs.drop (pat.length - 1))
      else c :: replaceAll pat repl cs
termination_by cs => cs.length
decreasing_by all_goals simp [List.length_drop] <;> omega

/-- `Number.parseInt` on a run of decimal digits. -/
def digitsToNat (ds : List Char) : Nat :=
  ds.foldl (fun acc c => acc * 10 + (c.toNat - 48)) 0

/-- `String.fromCharCode`: the code unit is taken modulo 2^16.  (A
value in the surrogate range is not a Unicode scalar and is mapped to
`Char.ofNat`'s default; no theorem evaluates that case.) -/
def fromCharCode (n : Nat) : Char := Char.ofNat (n % 65536)

/-- Length and value of a `&#(\d+);` match. -/
def numEntityLen (cs : List Char) : Option (Nat × Nat) :=
  match cs with
  | '&' :: '#' :: rest =>
      if (rest.takeWhile Char.isDigit).isEmpty then none
      else
        match rest.drop (rest.takeWhile Char.isDigit).length with
        | ';' :: _ =>
            some (2 + (rest.takeWhile Char.isDigit).length + 1,
              digitsToNat (rest.takeWhile Char.isDigit))
        | _ => none
  | _ => none

/-- The `&#(\d+);` → `String.fromCharCode(n)` replacement. -/
def replaceNumEntities : List Char → List Char
  | [] => []
  | c :: cs =>
      match numEntityLen (c :: cs) with
      | some (n, v) => fromCharCode v :: replaceNumEntities (cs.drop (n - 1))
      | none => c :: replaceNumEntities cs
termination_by cs => cs.length
decreasing_by all_goals simp [List.length_drop] <;> omega

/-- The `\n{3,}` → `\n\n` collapse. -/
def collapseNewlines : List Char → List Char
  | [] => []
  | c :: cs =>
      if c = '\n' then
        (if 3 ≤ ((c :: cs).takeWhile (fun x => x = '\n')).length then ['\n', '\n']
          else (c :: cs).takeWhile (fun x => x = '\n')) ++
          collapseNewlines (cs.drop (((c :: cs).takeWhile (fun x => x = '\n')).length - 1))
      else c :: collapseNewlines cs
termination_by cs => cs.length
decreasing_by all_goals simp [List.length_drop] <;> omega

/-- `htmlToText(html)` from packages/parser/src/index.ts: the sixteen
replacement steps in source order, innermost first, ending with
`.trim()`. -/
def htmlToText (html : List Char) : List Char :=
  jsTrim
    (collapseNewlines
      (replaceNumEntities
        (replaceAll "&quot;".toList ['"']
          (replaceAll "&gt;".toList ['>']
            (replaceAll "&lt;".toList ['<']
              (replaceAll "&amp;".toList ['&']
                (replaceAll "&nbsp;".toList [' ']
                  (stripTags
                    (replaceOpenLi
                      (replaceAllCI "</li>".toList ['\n']
                        (replaceAllCI "</div>".toList ['\n']
                          (replaceAllCI "</p>".toList ['\n', '\n']
                            (replaceBr
                              (stripTagBlocks "script".toList
                                (stripTagBlocks "style".toList html)))))))))))))))

end Faktoor

/-! # Theorems -/

namespace Faktoor

/-- C9: when the backoff mode is `'fixed'`, `getDelay` returns
`initialDelay` for every attempt number and every random draw, with no
jitter and no capping; in particular when `initialDelay > maxDelay` the
delay still equals `initialDelay` and exceeds `maxDelay`. -/
theorem getDelay_fixed_eq_initialDelay (cfg : RetryConfig) (attempt : Nat) (rand : ℚ)
    (hb : cfg.backoff = .fixed) :
    getDelay attempt cfg rand = cfg.initialDelay ∧
      (cfg.maxDelay < cfg.initialDelay → cfg.maxDelay < getDelay attempt cfg rand) := by
  have h : getDelay attempt cfg rand = cfg.initialDelay := by
    unfold getDelay
    rw [hb]
  exact ⟨h, fun hlt => h ▸ hlt⟩

/-- Witness for `getDelay_fixed_eq_initialDelay` at a concrete config with
`initialDelay = 5000 > maxDelay = 30`. -/
theorem getDelay_fixed_eq_initialDelay_witness :
    getDelay 7 ⟨3, .fixed, 5000, 30⟩ (1/2) = 5000 ∧
      ((30 : ℚ) < 5000 → (30 : ℚ) < getDelay 7 ⟨3, .fixed, 5000, 30⟩ (1/2)) :=
  getDelay_fixed_eq_initialDelay ⟨3, .fixed, 5000, 30⟩ 7 (1/2) rfl

/-- C4: with `attempts = 3` and `backoff = 'none'`, an operation that fails
twice with retryable errors and then succeeds is invoked exactly 3 times
and the wrapper returns the success; an operation whose first failure
carries `retryable = false` is invoked exactly once and the error is
re-raised, for any configured number of attempts ≥ 1. -/
theorem withRetry_retry_semantics :
    (∀ (out : Nat → Except ThrownError Nat) (cfg : RetryConfig) (e1 e2 : ThrownError) (v : Nat),
      cfg.attempts = 3 → cfg.backoff = .none →
      out 0 = .error e1 → e1.retryable ≠ some false →
      out 1 = .error e2 → e2.retryable ≠ some false →
      out 2 = .ok v →
      withRetry out cfg = (.ok v, 3)) ∧
    (∀ (out : Nat → Except ThrownError Nat) (cfg : RetryConfig) (e : ThrownError),
      1 ≤ cfg.attempts →
      out 0 = .error e → e.retryable = some false →
      withRetry out cfg = (.error (some e), 1)) := by
  constructor
  · intro out cfg e1 e2 v hA _ h0 hr0 h1 hr1 h2
    have hn0 : nonRetryable e1 = false := by
      unfold nonRetryable
      cases h : e1.retryable with
      | none => rfl
      | some b => cases b <;> simp_all
    have hn1 : nonRetryable e2 = false := by
      unfold nonRetryable
      cases h : e2.retryable with
      | none => rfl
      | some b => cases b <;> simp_all
    unfold withRetry
    rw [hA]
    rw [withRetryGo, if_pos (by omega)]
    simp only [h0, hn0, Bool.false_eq_true, if_false]
    rw [withRetryGo, if_pos (by omega)]
    simp only [h1, hn1, Bool.false_eq_true, if_false]
    rw [withRetryGo, if_pos (by omega)]
    simp only [h2]
  · intro out cfg e hA h0 hr
    have hn : nonRetryable e = true := by
      unfold nonRetryable
      rw [hr]
    unfold withRetry
    rw [withRetryGo, if_pos (by omega)]
    simp only [h0, hn, if_true]

/-- Witness for `withRetry_retry_semantics` on concrete operations. -/
theorem withRetry_retry_semantics_witness :
    withRetry
      (fun i => if i < 2 then .error ⟨some true⟩ else .ok 42)
      ⟨3, .none, 0, 0⟩ = (.ok 42, 3) ∧
    withRetry (fun _ => (.error ⟨some false⟩ : Except ThrownError Nat))
      ⟨3, .none, 0, 0⟩ = (.error (some ⟨some false⟩), 1) :=
  ⟨withRetry_retry_semantics.1 _ ⟨3, .none, 0, 0⟩ ⟨some true⟩ ⟨some true⟩ 42
      rfl rfl rfl (by decide) rfl (by decide) rfl,
    withRetry_retry_semantics.2 _ ⟨3, .none, 0, 0⟩ ⟨some false⟩ (by decide) rfl rfl⟩

/-- C10: `labelToFolderType` maps exactly `INBOX`, `SENT`, `DRAFT`,
`TRASH`, `SPAM` to `inbox`, `sent`, `drafts`, `trash`, `spam` and every
other label id to `custom`; consequently no folder produced by
`labelToFolder` ever has type `archive`. -/
theorem labelToFolderType_mapping :
    labelToFolderType "INBOX" = .inbox ∧
    labelToFolderType "SENT" = .sent ∧
    labelToFolderType "DRAFT" = .drafts ∧
    labelToFolderType "TRASH" = .trash ∧
    labelToFolderType "SPAM" = .spam ∧
    (∀ l : String, l ∉ folderLabelIds → labelToFolderType l = .custom) ∧
    (∀ lbl : LabelInfo, (labelToFolder lbl).type ≠ .archive) := by
  refine ⟨rfl, rfl, rfl, rfl, rfl, ?_, ?_⟩
  · intro l hl
    simp only [folderLabelIds, List.mem_cons, List.not_mem_nil, or_false, not_or] at hl
    obtain ⟨h1, h2, h3, h4, h5⟩ := hl
    unfold labelToFolderType
    rw [if_neg h1, if_neg h2, if_neg h3, if_neg h4, if_neg h5]
  · intro lbl
    show labelToFolderType lbl.id ≠ .archive
    unfold labelToFolderType
    repeat' split
    all_goals decide

/-- Witness for `labelToFolderType_mapping` at a concrete custom label. -/
theorem labelToFolderType_mapping_witness :
    labelToFolderType "Label_123" = .custom ∧
      (labelToFolder ⟨"STARRED", "Starred", "system", none, none⟩).type ≠ .archive :=
  ⟨labelToFolderType_mapping.2.2.2.2.2.1 "Label_123" (by decide),
    labelToFolderType_mapping.2.2.2.2.2.2 ⟨"STARRED", "Starred", "system", none, none⟩⟩

/-- C1 (code bug): `handleError` classifies a 401 as an authentication
error per the status-to-kind mapping (and converts Retry-After seconds
to milliseconds for 429, marks 5xx provider errors retryable), but the
error `GmailApi.request` raises to its caller is always a
`NetworkError` wrapping the classified error, because no thrown error
is an instance of the local helper class `FaktoorApiError`. -/
theorem gmailRequest_error_reaches_caller_unclassified :
    (∀ (status : Nat) (hdr : Option Nat) (msg : String),
        (requestFailure status hdr msg).code = "NETWORK_ERROR" ∧
        (requestFailure status hdr msg).retryable = true ∧
        (requestFailure status hdr msg).cause = some (handleError status hdr msg)) ∧
    (handleError 401 none "Unauthorized").code = "AUTH_ERROR" ∧
    (handleError 429 (some 7) "Slow down").retryAfter = some 7000 ∧
    (handleError 500 none "Boom").retryable = true ∧
    (requestFailure 401 none "Unauthorized").code ≠ "AUTH_ERROR" := by
  refine ⟨?_, by decide, by decide, by decide, by decide⟩
  intro status hdr msg
  have hno : instanceOfFaktoorApiError (handleError status hdr msg) = false := by
    unfold handleError
    repeat' split
    all_goals rfl
  simp only [requestFailure, hno, Bool.false_eq_true, if_false]
  exact ⟨rfl, rfl, rfl⟩

theorem countYield_nil : countYield [] = 0 := rfl

theorem countFetch_nil : countFetch [] = 0 := rfl

theorem countYield_cons_fetch (xs : List StreamEv) :
    countYield (StreamEv.fetch :: xs) = countYield xs := by
  simp [countYield, List.countP_cons]

theorem countYield_cons_get (m : String) (xs : List StreamEv) :
    countYield (StreamEv.getMsg m :: xs) = countYield xs := by
  simp [countYield, List.countP_cons]

theorem countYield_cons_yield (m : String) (xs : List StreamEv) :
    countYield (StreamEv.yieldMsg m :: xs) = countYield xs + 1 := by
  simp [countYield, List.countP_cons]

theorem countFetch_cons_fetch (xs : List StreamEv) :
    countFetch (StreamEv.fetch :: xs) = countFetch xs + 1 := by
  simp [countFetch, List.countP_cons]

theorem countFetch_cons_get (m : String) (xs : List StreamEv) :
    countFetch (StreamEv.getMsg m :: xs) = countFetch xs := by
  simp [countFetch, List.countP_cons]

theorem countFetch_cons_yield (m : String) (xs : List StreamEv) :
    countFetch (StreamEv.yieldMsg m :: xs) = countFetch xs := by
  simp [countFetch, List.countP_cons]

theorem countYield_append (xs ys : List StreamEv) :
    countYield (xs ++ ys) = countYield xs + countYield ys := by
  simp [countYield, List.countP_append]

theorem countFetch_append (xs ys : List StreamEv) :
    countFetch (xs ++ ys) = countFetch xs + countFetch ys := by
  simp [countFetch, List.countP_append]

theorem countYield_body (msgs : List String) :
    countYield (msgs.flatMap fun m => [StreamEv.getMsg m, StreamEv.yieldMsg m]) =
      msgs.length := by
  induction msgs with
  | nil => rfl
  | cons m ms ih =>
      simp only [List.flatMap_cons, List.cons_append, List.nil_append,
        countYield_cons_get, countYield_cons_yield, ih, List.length_cons]

theorem countFetch_body (msgs : List String) :
    countFetch (msgs.flatMap fun m => [StreamEv.getMsg m, StreamEv.yieldMsg m]) = 0 := by
  induction msgs with
  | nil => rfl
  | cons m ms ih =>
      simp only [List.flatMap_cons, List.cons_append, List.nil_append,
        countFetch_cons_get, countFetch_cons_yield, ih]

theorem prefixUpToYield_append (k : Nat) (xs ys : List StreamEv) :
    prefixUpToYield k (xs ++ ys) =
      if countYield xs < k then xs ++ prefixUpToYield (k - countYield xs) ys
      else prefixUpToYield k xs := by
  induction xs generalizing k with
  | nil =>
      cases k with
      | zero => simp [countYield_nil, prefixUpToYield]
      | succ k => simp [countYield_nil, prefixUpToYield]
  | cons e xs ih =>
      cases k with
      | zero => simp [prefixUpToYield]
      | succ k =>
          cases e with
          | fetch =>
              simp only [List.cons_append, prefixUpToYield, List.append_eq, ih,
                countYield_cons_fetch]
              by_cases h : countYield xs < k + 1 <;> simp [h]
          | getMsg m =>
              simp only [List.cons_append, prefixUpToYield, List.append_eq, ih,
                countYield_cons_get]
              by_cases h : countYield xs < k + 1 <;> simp [h]
          | yieldMsg m =>
              simp only [List.cons_append, prefixUpToYield, List.append_eq, ih,
                countYield_cons_yield]
              by_cases h : countYield xs < k
              · rw [if_pos h, if_pos (by omega)]
                have h2 : k + 1 - (countYield xs + 1) = k - countYield xs := by omega
                rw [h2]
              · rw [if_neg h, if_neg (by omega)]

theorem countFetch_prefixUpToYield_le (k : Nat) (xs : List StreamEv) :
    countFetch (prefixUpToYield k xs) ≤ countFetch xs := by
  induction xs generalizing k with
  | nil => cases k <;> simp [prefixUpToYield, countFetch_nil]
  | cons e xs ih =>
      cases k with
      | zero => simp [prefixUpToYield, countFetch_nil]
      | succ k =>
          cases e with
          | fetch =>
              simp only [prefixUpToYield, countFetch_cons_fetch]
              exact Nat.add_le_add_right (ih _) 1
          | getMsg m =>
              simp only [prefixUpToYield, countFetch_cons_get]
              exact ih _
          | yieldMsg m =>
              simp only [prefixUpToYield, countFetch_cons_yield]
              exact ih _

/-- C7: consuming only 2 items of a 3-page × 2-item source issues exactly
1 page-list request; in general, a consumer stopping after `k` of the
available items causes exactly as many list requests as the index of the
page containing item `k` — never a fetch of a page beyond the one being
consumed. -/
theorem stream_early_stop_fetch_count :
    countFetch (prefixUpToYield 2
        (streamTrace [["m1", "m2"], ["m3", "m4"], ["m5", "m6"]])) = 1 ∧
    ∀ (pages : List (List String)) (k : Nat),
      1 ≤ k → k ≤ countYield (streamTrace pages) →
      countFetch (prefixUpToYield k (streamTrace pages)) = pageOfItem pages k := by
  refine ⟨by decide, ?_⟩
  intro pages
  induction pages with
  | nil =>
      intro k h1 h2
      rw [streamTrace] at h2
      rw [countYield_nil] at h2
      omega
  | cons msgs rest ih =>
      intro k h1 h2
      rw [streamTrace] at h2 ⊢
      by_cases hm : msgs = []
      · rw [if_pos hm] at h2
        rw [countYield_cons_fetch, countYield_nil] at h2
        omega
      · rw [if_neg hm] at h2 ⊢
        obtain ⟨k1, rfl⟩ : ∃ k1, k = k1 + 1 := ⟨k - 1, by omega⟩
        rw [countYield_cons_fetch, countYield_append, countYield_body] at h2
        rw [prefixUpToYield, countFetch_cons_fetch, prefixUpToYield_append,
          countYield_body]
        by_cases hk : msgs.length < k1 + 1
        · rw [if_pos hk, countFetch_append, countFetch_body]
          cases hrest : rest.isEmpty with
          | true =>
              rw [hrest] at h2
              simp only [if_true] at h2
              rw [countYield_nil] at h2
              omega
          | false =>
              rw [hrest] at h2
              simp only [Bool.false_eq_true, if_false] at h2
              rw [if_neg (by simp [hrest])]
              have hrec := ih (k1 + 1 - msgs.length) (by omega) (by omega)
              rw [pageOfItem, if_neg (by omega)]
              omega
        · rw [if_neg hk]
          have hle := countFetch_prefixUpToYield_le (k1 + 1)
            (msgs.flatMap fun m => [StreamEv.getMsg m, StreamEv.yieldMsg m])
          rw [countFetch_body] at hle
          rw [pageOfItem, if_pos (by omega)]
          omega

/-- Witness for `stream_early_stop_fetch_count` on a concrete 2-page
source, consuming all 3 items. -/
theorem stream_early_stop_fetch_count_witness :
    countFetch (prefixUpToYield 3 (streamTrace [["a"], ["b", "c"]])) =
      pageOfItem [["a"], ["b", "c"]] 3 :=
  stream_early_stop_fetch_count.2 [["a"], ["b", "c"]] 3 (by decide) (by decide)

/-- C3 counterexample: the folder assigned by `parseGmailMessage` does
depend on the order of the message's own label list, and for labels
`[SENT, INBOX]` it is `SENT`, not the fixed-priority answer `INBOX`. -/
theorem folderFromLabels_order_dependent :
    folderFromLabels ["SENT", "INBOX"] = "SENT" ∧
    folderFromLabels ["INBOX", "SENT"] = "INBOX" ∧
    folderFromLabels ["SENT", "INBOX"] ≠ folderFromLabels ["INBOX", "SENT"] := by
  refine ⟨rfl, rfl, ?_⟩
  decide

/-- C3 (amended): the folder is the first tag in the order of the
message's own label list that is one of INBOX, SENT, DRAFT, TRASH, SPAM,
defaulting to INBOX when none of the five is present. -/
theorem folderFromLabels_first_in_list_order :
    (∀ ls : List String, (∀ l ∈ ls, l ∉ folderLabelIds) → folderFromLabels ls = "INBOX") ∧
    (∀ (pre : List String) (l : String) (rest : List String),
      l ∈ folderLabelIds → (∀ x ∈ pre, x ∉ folderLabelIds) →
      folderFromLabels (pre ++ l :: rest) = l) := by
  constructor
  · intro ls h
    unfold folderFromLabels
    have : ls.find? (fun l => folderLabelIds.contains l) = Option.none := by
      apply List.find?_eq_none.mpr
      intro x hx
      simpa using h x hx
    rw [this]
    rfl
  · intro pre l rest hl hpre
    unfold folderFromLabels
    have hfind : (pre ++ l :: rest).find? (fun x => folderLabelIds.contains x) = some l := by
      induction pre with
      | nil =>
          simp only [List.nil_append, List.find?_cons]
          have : folderLabelIds.contains l = true := by simpa using hl
          rw [this]
      | cons p ps ih =>
          simp only [List.cons_append, List.find?_cons]
          have hp : folderLabelIds.contains p = false := by
            have := hpre p (by simp)
            simpa using this
          rw [hp]
          exact ih (fun x hx => hpre x (by simp [hx]))
    rw [hfind]
    rfl

/-- Witness for `folderFromLabels_first_in_list_order`: a custom label
before TRASH does not win. -/
theorem folderFromLabels_first_in_list_order_witness :
    folderFromLabels ["UNREAD", "STARRED"] = "INBOX" ∧
    folderFromLabels (["UNREAD"] ++ "TRASH" :: ["INBOX"]) = "TRASH" :=
  ⟨folderFromLabels_first_in_list_order.1 ["UNREAD", "STARRED"] (by decide),
    folderFromLabels_first_in_list_order.2 ["UNREAD"] "TRASH" ["INBOX"] (by decide) (by decide)⟩

/-! ### Base64url round trip -/

theorem char_toNat_lt (c : Char) : c.toNat < 1114112 := by
  have h := c.valid
  simp only [UInt32.isValidChar, Nat.isValidChar] at h
  show c.val.toNat < 1114112
  omega

theorem b64Alphabet_length : b64Alphabet.length = 64 := by decide

theorem b64Char_mem (n : Nat) : b64Char n ∈ b64Alphabet := by
  by_cases h : n < 64
  · have hall : ∀ m, m < 64 → b64Char m ∈ b64Alphabet := by decide
    exact hall n h
  · unfold b64Char
    rw [List.getD_eq_default _ _ (by rw [b64Alphabet_length]; omega)]
    decide

theorem b64Alphabet_char_props :
    ∀ c ∈ b64Alphabet,
      c ≠ '=' ∧
      underscoreToSlash (dashToPlus (slashToUnderscore (plusToDash c))) = c ∧
      slashToUnderscore (plusToDash c) ≠ '+' ∧
      slashToUnderscore (plusToDash c) ≠ '/' ∧
      slashToUnderscore (plusToDash c) ≠ '=' := by
  decide

theorem b64Char_ne_eqsign (n : Nat) : b64Char n ≠ '=' :=
  (b64Alphabet_char_props _ (b64Char_mem n)).1

theorem b64Val_b64Char (n : Nat) (h : n < 64) : b64Val (b64Char n) = some n := by
  have hall : ∀ m, m < 64 → b64Val (b64Char m) = some m := by decide
  exact hall n h

theorem b64EncodeBytes_decomp : ∀ bs : List Nat,
    ∃ A k, b64EncodeBytes bs = A ++ List.replicate k '=' ∧
      (∀ c ∈ A, c ∈ b64Alphabet) ∧ k = (4 - A.length % 4) % 4
  | [] => ⟨[], 0, by simp [b64EncodeBytes], by simp, by decide⟩
  | [b1] =>
      ⟨[b64Char (b1 / 4), b64Char (b1 % 4 * 16)], 2,
        by simp [b64EncodeBytes, List.replicate],
        by
          intro c hc
          simp only [List.mem_cons, List.not_mem_nil, or_false] at hc
          rcases hc with rfl | rfl <;> exact b64Char_mem _,
        by simp⟩
  | [b1, b2] =>
      ⟨[b64Char (b1 / 4), b64Char (b1 % 4 * 16 + b2 / 16), b64Char (b2 % 16 * 4)], 1,
        by simp [b64EncodeBytes, List.replicate],
        by
          intro c hc
          simp only [List.mem_cons, List.not_mem_nil, or_false] at hc
          rcases hc with rfl | rfl | rfl <;> exact b64Char_mem _,
        by simp⟩
  | b1 :: b2 :: b3 :: rest => by
      obtain ⟨A, k, h1, h2, h3⟩ := b64EncodeBytes_decomp rest
      refine ⟨b64Char (b1 / 4) :: b64Char (b1 % 4 * 16 + b2 / 16) ::
        b64Char (b2 % 16 * 4 + b3 / 64) :: b64Char (b3 % 64) :: A, k, ?_, ?_, ?_⟩
      · rw [b64EncodeBytes, h1]
        simp
      · intro c hc
        simp only [List.mem_cons] at hc
        rcases hc with rfl | rfl | rfl | rfl | hc
        · exact b64Char_mem _
        · exact b64Char_mem _
        · exact b64Char_mem _
        · exact b64Char_mem _
        · exact h2 c hc
      · simp only [List.length_cons]
        omega

theorem dropWhile_append_all {α : Type} (p : α → Bool) (xs ys : List α)
    (h : ∀ x ∈ xs, p x) :
    List.dropWhile p (xs ++ ys) = List.dropWhile p ys := by
  induction xs with
  | nil => simp
  | cons a t ih =>
      rw [List.cons_append, List.dropWhile_cons, if_pos (h a (by simp))]
      exact ih fun x hx => h x (by simp [hx])

theorem stripTrailingEq_decomp (A : List Char) (k : Nat) (hA : ∀ c ∈ A, c ≠ '=') :
    stripTrailingEq (A ++ List.replicate k '=') = A := by
  unfold stripTrailingEq
  rw [List.reverse_append, List.reverse_replicate]
  rw [dropWhile_append_all _ _ _ (by
    intro x hx
    rw [List.mem_replicate] at hx
    simp [hx.2])]
  cases hr : A.reverse with
  | nil =>
      have : A = [] := by simpa using congrArg List.reverse hr
      simp [this]
  | cons a t =>
      rw [List.dropWhile_cons, if_neg (by
        have ha : a ∈ A := by
          have : a ∈ A.reverse := by rw [hr]; simp
          simpa using this
        simp [hA a ha])]
      rw [← hr, List.reverse_reverse]

theorem b64DecodeChars_b64EncodeBytes : ∀ bs : List Nat, (∀ b ∈ bs, b < 256) →
    b64DecodeChars (b64EncodeBytes bs) = bs
  | [], _ => rfl
  | [b1], h => by
      have hb1 : b1 < 256 := h b1 (by simp)
      rw [b64EncodeBytes, b64DecodeChars]
      rw [b64Val_b64Char _ (by omega), b64Val_b64Char _ (by omega)]
      dsimp only
      rw [if_pos rfl]
      congr 1
      omega
  | [b1, b2], h => by
      have hb1 : b1 < 256 := h b1 (by simp)
      have hb2 : b2 < 256 := h b2 (by simp)
      rw [b64EncodeBytes, b64DecodeChars]
      rw [b64Val_b64Char _ (by omega), b64Val_b64Char _ (by omega)]
      dsimp only
      rw [if_neg (b64Char_ne_eqsign _), b64Val_b64Char _ (by omega)]
      dsimp only
      rw [if_pos rfl]
      congr 2 <;> omega
  | b1 :: b2 :: b3 :: rest, h => by
      have hb1 : b1 < 256 := h b1 (by simp)
      have hb2 : b2 < 256 := h b2 (by simp)
      have hb3 : b3 < 256 := h b3 (by simp)
      have ih := b64DecodeChars_b64EncodeBytes rest
        (fun b hb => h b (by simp [hb]))
      rw [b64EncodeBytes, b64DecodeChars]
      rw [b64Val_b64Char _ (by omega), b64Val_b64Char _ (by omega)]
      dsimp only
      rw [if_neg (b64Char_ne_eqsign _), b64Val_b64Char _ (by omega)]
      dsimp only
      rw [if_neg (b64Char_ne_eqsign _), b64Val_b64Char _ (by omega)]
      dsimp only
      rw [ih]
      congr 3 <;> omega

theorem utf8EncodeChar_lt256 (c : Nat) (hc : c < 1114112) :
    ∀ b ∈ utf8EncodeChar c, b < 256 := by
  unfold utf8EncodeChar
  split_ifs with h1 h2 h3 <;>
    · intro b hb
      simp only [List.mem_cons, List.not_mem_nil, or_false] at hb
      rcases hb with rfl | rfl | rfl | rfl <;> omega

theorem utf8Encode_lt256 (s : List Char) : ∀ b ∈ utf8Encode s, b < 256 := by
  intro b hb
  unfold utf8Encode at hb
  rw [List.mem_flatMap] at hb
  obtain ⟨c, _, hbc⟩ := hb
  exact utf8EncodeChar_lt256 c.toNat (char_toNat_lt c) b hbc

theorem utf8Decode_encodeChar (c : Nat) (hc : c < 1114112) (rest : List Nat) :
    utf8Decode (utf8EncodeChar c ++ rest) = c :: utf8Decode rest := by
  unfold utf8EncodeChar
  split_ifs with h1 h2 h3
  · rw [List.singleton_append, utf8Decode]
    have hs : utf8Step c rest = (c, 0) := by
      unfold utf8Step
      rw [if_pos h1]
    rw [hs]
    dsimp only
    rw [List.drop_zero]
  · rw [List.cons_append, List.cons_append, List.nil_append, utf8Decode]
    have hs : utf8Step (0xC0 + c / 64) ((0x80 + c % 64) :: rest) = (c, 1) := by
      unfold utf8Step
      rw [if_neg (by omega), if_neg (by omega), if_pos (by omega)]
      dsimp only
      rw [if_pos (show (128 : Nat) ≤ 128 + c % 64 ∧ 128 + c % 64 < 192 by
        constructor <;> omega)]
      congr 1
      omega
    rw [hs]
    dsimp only
    rw [List.drop_succ_cons, List.drop_zero]
  · rw [List.cons_append, List.cons_append, List.cons_append, List.nil_append,
      utf8Decode]
    have hs : utf8Step (0xE0 + c / 4096)
        ((0x80 + c / 64 % 64) :: (0x80 + c % 64) :: rest) = (c, 2) := by
      unfold utf8Step
      rw [if_neg (by omega), if_neg (by omega), if_neg (by omega), if_pos (by omega)]
      dsimp only
      rw [if_pos (show ((128 : Nat) ≤ 128 + c / 64 % 64 ∧ 128 + c / 64 % 64 < 192) ∧
          (128 : Nat) ≤ 128 + c % 64 ∧ 128 + c % 64 < 192 by
        refine ⟨⟨?_, ?_⟩, ?_, ?_⟩ <;> omega)]
      congr 1
      omega
    rw [hs]
    dsimp only
    rw [List.drop_succ_cons, List.drop_succ_cons, List.drop_zero]
  · rw [List.cons_append, List.cons_append, List.cons_append, List.cons_append,
      List.nil_append, utf8Decode]
    have hs : utf8Step (0xF0 + c / 262144)
        ((0x80 + c / 4096 % 64) :: (0x80 + c / 64 % 64) :: (0x80 + c % 64) :: rest) =
        (c, 3) := by
      unfold utf8Step
      rw [if_neg (by omega), if_neg (by omega), if_neg (by omega), if_neg (by omega)]
      dsimp only
      rw [if_pos (show ((128 : Nat) ≤ 128 + c / 4096 % 64 ∧ 128 + c / 4096 % 64 < 192) ∧
          ((128 : Nat) ≤ 128 + c / 64 % 64 ∧ 128 + c / 64 % 64 < 192) ∧
            (128 : Nat) ≤ 128 + c % 64 ∧ 128 + c % 64 < 192 by
        refine ⟨⟨?_, ?_⟩, ⟨?_, ?_⟩, ?_, ?_⟩ <;> omega)]
      congr 1
      omega
    rw [hs]
    dsimp only
    rw [List.drop_succ_cons, List.drop_succ_cons, List.drop_succ_cons, List.drop_zero]

theorem utf8Decode_nil : utf8Decode [] = [] := by
  rw [utf8Decode]

theorem utf8DecodeChars_utf8Encode (s : List Char) :
    utf8DecodeChars (utf8Encode s) = s := by
  induction s with
  | nil =>
      show utf8DecodeChars (utf8Encode []) = []
      unfold utf8Encode utf8DecodeChars
      rw [List.flatMap_nil, utf8Decode_nil]
      rfl
  | cons c cs ih =>
      have hsplit : utf8Encode (c :: cs) = utf8EncodeChar c.toNat ++ utf8Encode cs := by
        unfold utf8Encode
        rw [List.flatMap_cons]
      rw [hsplit]
      unfold utf8DecodeChars
      rw [utf8Decode_encodeChar _ (char_toNat_lt c)]
      rw [List.map_cons, Char.ofNat_toNat]
      show c :: utf8DecodeChars (utf8Encode cs) = c :: cs
      rw [ih]

/-- The url-safe form of the padding-free part of the encoding. -/
theorem encodeBase64Url_eq_mapped (s : List Char) :
    ∃ A, b64EncodeBytes (utf8Encode s) =
        A ++ List.replicate ((4 - A.length % 4) % 4) '=' ∧
      (∀ c ∈ A, c ∈ b64Alphabet) ∧
      encodeBase64Url s = (A.map plusToDash).map slashToUnderscore := by
  obtain ⟨A, k, h1, h2, h3⟩ := b64EncodeBytes_decomp (utf8Encode s)
  refine ⟨A, by rw [← h3]; exact h1, h2, ?_⟩
  unfold encodeBase64Url toUrlSafe
  rw [h1, List.map_append, List.map_append]
  have hrep : ((List.replicate k '=').map plusToDash).map slashToUnderscore =
      List.replicate k '=' := by
    rw [List.map_replicate, List.map_replicate]
    rfl
  rw [hrep]
  apply stripTrailingEq_decomp
  intro c hc
  rw [List.mem_map] at hc
  obtain ⟨c1, hc1, rfl⟩ := hc
  rw [List.mem_map] at hc1
  obtain ⟨c0, hc0, rfl⟩ := hc1
  exact (b64Alphabet_char_props c0 (h2 c0 hc0)).2.2.2.2

theorem decodeBase64Url_encodeBase64Url (s : List Char) :
    decodeBase64Url (encodeBase64Url s) = s := by
  obtain ⟨A, hA, hmem, henc⟩ := encodeBase64Url_eq_mapped s
  unfold decodeBase64Url
  rw [henc]
  have hfrom : fromUrlSafe ((A.map plusToDash).map slashToUnderscore) = A := by
    unfold fromUrlSafe
    rw [List.map_map, List.map_map, List.map_map]
    nth_rewrite 2 [show A = A.map id from (List.map_id A).symm]
    apply List.map_congr_left
    intro c hc
    exact (b64Alphabet_char_props c (hmem c hc)).2.1
  rw [hfrom]
  have hpad : padB64 A = b64EncodeBytes (utf8Encode s) := by
    unfold padB64
    rw [hA]
  rw [hpad, b64DecodeChars_b64EncodeBytes _ (utf8Encode_lt256 s),
    utf8DecodeChars_utf8Encode]

/-- C6: for every string (sequence of Unicode scalar values) `s`,
`decodeBase64Url (encodeBase64Url s) = s`, and the output of
`encodeBase64Url` never contains `+`, `/` or `=`. -/
theorem base64url_round_trip :
    (∀ s : List Char, decodeBase64Url (encodeBase64Url s) = s) ∧
    (∀ s : List Char, ∀ c ∈ encodeBase64Url s, c ≠ '+' ∧ c ≠ '/' ∧ c ≠ '=') := by
  constructor
  · exact decodeBase64Url_encodeBase64Url
  · intro s c hc
    obtain ⟨A, hA, hmem, henc⟩ := encodeBase64Url_eq_mapped s
    rw [henc] at hc
    rw [List.mem_map] at hc
    obtain ⟨c1, hc1, rfl⟩ := hc
    rw [List.mem_map] at hc1
    obtain ⟨c0, hc0, rfl⟩ := hc1
    have hp := b64Alphabet_char_props c0 (hmem c0 hc0)
    exact ⟨hp.2.2.1, hp.2.2.2.1, hp.2.2.2.2⟩

/-! ### Body extraction: last qualifying leaf wins -/

mutual
theorem processPart_spec : ∀ (p : GPart) (st : EmailBody),
    processPart st p =
      { html := (htmlLeaves p).foldl (fun _ x => some x) st.html,
        text := (plainLeaves p).foldl (fun _ x => x) st.text }
  | .node mt bd parts, st => by
      rw [processPart.eq_def, htmlLeaves.eq_def, plainLeaves.eq_def]
      dsimp only
      by_cases h1 : mt = some ("text/html".toList) ∧ truthyStr bd
      · simp only [if_pos h1, List.foldl_cons, List.foldl_nil]
      · by_cases h2 : mt = some ("text/plain".toList) ∧ truthyStr bd
        · simp only [if_neg h1, if_pos h2, List.foldl_cons, List.foldl_nil]
        · simp only [if_neg h1, if_neg h2]
          cases parts with
          | undef => simp only [List.foldl_nil]
          | arr ps => exact processParts_spec ps st

theorem processParts_spec : ∀ (ps : GParts) (st : EmailBody),
    processParts st ps =
      { html := (htmlLeavesList ps).foldl (fun _ x => some x) st.html,
        text := (plainLeavesList ps).foldl (fun _ x => x) st.text }
  | .nil, st => by
      rw [processParts.eq_def, htmlLeavesList.eq_def, plainLeavesList.eq_def]
      dsimp only
      simp only [List.foldl_nil]
  | .cons h t, st => by
      rw [processParts.eq_def, htmlLeavesList.eq_def, plainLeavesList.eq_def]
      dsimp only
      rw [processParts_spec t (processPart st h), processPart_spec h st]
      rw [List.foldl_append, List.foldl_append]
end

theorem foldl_lastOpt : ∀ (l : List (List Char)) (d : Option (List Char)),
    l.foldl (fun _ x => some x) d =
      match l.getLast? with
      | some x => some x
      | none => d
  | [], _ => rfl
  | x :: t, d => by
      rw [List.foldl_cons, foldl_lastOpt t (some x)]
      cases t with
      | nil => rfl
      | cons y u =>
          rw [List.getLast?_cons_cons]
          obtain ⟨z, hz⟩ : ∃ z, (y :: u).getLast? = some z := by
            cases h : (y :: u).getLast? with
            | none => exact absurd (List.getLast?_eq_none_iff.mp h) (by simp)
            | some z => exact ⟨z, rfl⟩
          rw [hz]

theorem foldl_lastStr : ∀ (l : List (List Char)) (d : List Char),
    l.foldl (fun _ x => x) d = (l.getLast?).getD d
  | [], _ => rfl
  | x :: t, d => by
      rw [List.foldl_cons, foldl_lastStr t x]
      cases t with
      | nil => rfl
      | cons y u =>
          rw [List.getLast?_cons_cons]
          obtain ⟨z, hz⟩ : ∃ z, (y :: u).getLast? = some z := by
            cases h : (y :: u).getLast? with
            | none => exact absurd (List.getLast?_eq_none_iff.mp h) (by simp)
            | some z => exact ⟨z, rfl⟩
          rw [hz]
          rfl

/-- C2 (amended): multiple parts of the same MIME type are never merged,
but for each MIME type it is the LAST qualifying leaf in depth-first
document order that wins, not the first: `text` is the decoded content
of the last `text/plain` leaf with truthy inline data visited by the
walk (default `""`), `html` of the last such `text/html` leaf (default
`null`), and a tree with no qualifying leaf yields the default empty
body. -/
theorem extractBody_last_leaf_wins :
    (∀ p : GPart, extractBody (some p) =
        { html := (htmlLeaves p).getLast?,
          text := ((plainLeaves p).getLast?).getD [] }) ∧
    extractBody none = { html := none, text := [] } := by
  refine ⟨?_, rfl⟩
  intro p
  show processPart { html := none, text := [] } p = _
  rw [processPart_spec, foldl_lastOpt, foldl_lastStr]
  have hh : (match (htmlLeaves p).getLast? with
      | some x => some x
      | none => (none : Option (List Char))) = (htmlLeaves p).getLast? := by
    cases (htmlLeaves p).getLast? <;> rfl
  rw [hh]

/-- C2 counterexample: a multipart tree with two `text/plain` leaves
decoding to `a` and `b`: `extractBody` returns text `b` (the second
leaf), while the claim demands the first leaf's content `a`. -/
theorem extractBody_two_plain_counterexample :
    extractBody (some (GPart.node none none (.arr (.cons
        (GPart.node (some "text/plain".toList) (some "YQ".toList) .undef)
        (.cons (GPart.node (some "text/plain".toList) (some "Yg".toList) .undef)
          .nil))))) =
      { html := none, text := "b".toList } ∧
    decodeBase64Url "YQ".toList = "a".toList ∧
    ("b".toList : List Char) ≠ "a".toList := by
  have ha : decodeBase64Url "YQ".toList = "a".toList := by
    have h1 : encodeBase64Url "a".toList = "YQ".toList := by decide
    rw [← h1, decodeBase64Url_encodeBase64Url]
  have hb : decodeBase64Url "Yg".toList = "b".toList := by
    have h1 : encodeBase64Url "b".toList = "Yg".toList := by decide
    rw [← h1, decodeBase64Url_encodeBase64Url]
  refine ⟨?_, ha, by decide⟩
  show processPart { html := none, text := [] } _ = _
  rw [processPart_spec]
  have hOH : ¬((none : Option (List Char)) = some ("text/html".toList) ∧
      truthyStr none = true) := by decide
  have hOP : ¬((none : Option (List Char)) = some ("text/plain".toList) ∧
      truthyStr none = true) := by decide
  have hCH1 : ¬(some ("text/plain".toList) = some ("text/html".toList) ∧
      truthyStr (some "YQ".toList) = true) := by decide
  have hCP1 : some ("text/plain".toList) = some ("text/plain".toList) ∧
      truthyStr (some "YQ".toList) = true := by decide
  have hCH2 : ¬(some ("text/plain".toList) = some ("text/html".toList) ∧
      truthyStr (some "Yg".toList) = true) := by decide
  have hCP2 : some ("text/plain".toList) = some ("text/plain".toList) ∧
      truthyStr (some "Yg".toList) = true := by decide
  simp only [htmlLeaves.eq_def, plainLeaves.eq_def, htmlLeavesList.eq_def,
    plainLeavesList.eq_def, if_neg hOH, if_neg hOP, if_neg hCH1, if_pos hCP1,
    if_neg hCH2, if_pos hCP2, List.foldl_cons, List.foldl_nil, List.append_nil,
    List.nil_append, List.cons_append, Option.getD_some]
  rw [hb]
  simp [truthyStr]

/-! ### Address round trip -/

theorem takeWhile_append_stop {p : Char → Bool} :
    ∀ (xs : List Char) (y : Char) (ys : List Char), (∀ x ∈ xs, p x = true) →
      p y = false → (xs ++ y :: ys).takeWhile p = xs
  | [], y, ys, _, hy => by
      rw [List.nil_append, List.takeWhile_cons, hy]
      simp
  | x :: xs, y, ys, hxs, hy => by
      rw [List.cons_append, List.takeWhile_cons, hxs x (by simp), if_pos rfl,
        takeWhile_append_stop xs y ys (fun a ha => hxs a (by simp [ha])) hy]

theorem dropWhile_append_stop {p : Char → Bool} :
    ∀ (xs : List Char) (y : Char) (ys : List Char), (∀ x ∈ xs, p x = true) →
      p y = false → (xs ++ y :: ys).dropWhile p = y :: ys
  | [], y, ys, _, hy => by
      rw [List.nil_append, List.dropWhile_cons, hy]
      simp
  | x :: xs, y, ys, hxs, hy => by
      rw [List.cons_append, List.dropWhile_cons, hxs x (by simp), if_pos rfl]
      exact dropWhile_append_stop xs y ys (fun a ha => hxs a (by simp [ha])) hy

theorem dropWhile_all_false {p : Char → Bool} (l : List Char)
    (h : ∀ c ∈ l, p c = false) : l.dropWhile p = l := by
  cases l with
  | nil => rfl
  | cons a t =>
      rw [List.dropWhile_cons, h a (by simp)]
      simp

theorem jsTrim_all_non_ws (l : List Char) (h : ∀ c ∈ l, jsWhitespace c = false) :
    jsTrim l = l := by
  unfold jsTrim
  rw [dropWhile_all_false l h,
    dropWhile_all_false l.reverse (fun c hc => h c (List.mem_reverse.mp hc)),
    List.reverse_reverse]

theorem emailChar_not_ws (c : Char) (h : emailChar c = true) :
    jsWhitespace c = false := by
  cases hws : jsWhitespace c with
  | false => rfl
  | true =>
      unfold emailChar at h
      rw [hws] at h
      simp at h

theorem matchEmailCore_eval (l d : List Char) (hl : l ≠ []) (hd : d ≠ [])
    (hlc : ∀ c ∈ l, emailChar c = true) (hdc : ∀ c ∈ d, emailChar c = true) :
    matchEmailCore ((l ++ '@' :: d) ++ ['>']) = some (l ++ '@' :: d) := by
  have hE : (l ++ '@' :: d) ++ ['>'] = l ++ '@' :: (d ++ ['>']) := by simp
  have t1 : (l ++ '@' :: (d ++ ['>'])).takeWhile emailChar = l :=
    takeWhile_append_stop l '@' _ hlc (by decide)
  have t2 : (l ++ '@' :: (d ++ ['>'])).dropWhile emailChar = '@' :: (d ++ ['>']) :=
    dropWhile_append_stop l '@' _ hlc (by decide)
  have t3 : (d ++ ['>']).takeWhile emailChar = d :=
    takeWhile_append_stop d '>' [] hdc (by decide)
  have t4 : (d ++ ['>']).dropWhile emailChar = ['>'] :=
    dropWhile_append_stop d '>' [] hdc (by decide)
  have hle : l.isEmpty = false := by
    cases l with | nil => exact absurd rfl hl | cons a t => rfl
  have hde : d.isEmpty = false := by
    cases d with | nil => exact absurd rfl hd | cons a t => rfl
  rw [hE]
  unfold matchEmailCore
  rw [t1, t2, hle]
  simp only [Bool.false_eq_true, if_false]
  split
  next h =>
    rw [t3, hde] at h
    exact absurd h (by simp)
  next h =>
    rw [t3, t4]
    rfl

theorem matchTail_eval (l d : List Char) (hl : l ≠ []) (hd : d ≠ [])
    (hlc : ∀ c ∈ l, emailChar c = true) (hdc : ∀ c ∈ d, emailChar c = true) :
    matchTail ('<' :: ((l ++ '@' :: d) ++ ['>'])) = some (l ++ '@' :: d) := by
  show (matchEmailCore ((l ++ '@' :: d) ++ ['>'])).orElse
    (fun _ => matchEmailCore ('<' :: ((l ++ '@' :: d) ++ ['>']))) = some (l ++ '@' :: d)
  rw [matchEmailCore_eval l d hl hd hlc hdc]
  rfl

theorem starSplits_head {p : Char → Bool} (xs : List Char) (y : Char) (ys : List Char)
    (hxs : ∀ x ∈ xs, p x = true) (hy : p y = false) :
    starSplits p (xs ++ y :: ys) =
      (xs, y :: ys) ::
        (List.range xs.length).reverse.map fun k =>
          ((xs ++ y :: ys).take k, (xs ++ y :: ys).drop k) := by
  unfold starSplits
  rw [takeWhile_append_stop xs y ys hxs hy, List.range_succ, List.reverse_append,
    List.reverse_singleton, List.singleton_append, List.map_cons, List.take_left,
    List.drop_left]

theorem nameGroupChoices_head (name l d : List Char)
    (hnc : ∀ c ∈ name, nameChar c = true) :
    ∃ tail,
      nameGroupChoices ('"' :: (name ++ '"' :: ' ' :: '<' :: ((l ++ '@' :: d) ++ ['>']))) =
        (name, '<' :: ((l ++ '@' :: d) ++ ['>'])) :: tail := by
  unfold nameGroupChoices
  rw [show optQuote ('"' :: (name ++ '"' :: ' ' :: '<' :: ((l ++ '@' :: d) ++ ['>']))) =
    [name ++ '"' :: ' ' :: '<' :: ((l ++ '@' :: d) ++ ['>']),
      '"' :: (name ++ '"' :: ' ' :: '<' :: ((l ++ '@' :: d) ++ ['>']))] from rfl]
  rw [List.flatMap_cons]
  try dsimp only
  rw [show (name ++ '"' :: ' ' :: '<' :: ((l ++ '@' :: d) ++ ['>'])) =
    (name ++ '"' :: (' ' :: '<' :: ((l ++ '@' :: d) ++ ['>']))) from rfl]
  rw [starSplits_head name '"' _ hnc (by decide)]
  rw [List.flatMap_cons]
  try dsimp only
  rw [show optQuote ('"' :: (' ' :: '<' :: ((l ++ '@' :: d) ++ ['>']))) =
    [' ' :: '<' :: ((l ++ '@' :: d) ++ ['>']),
      '"' :: (' ' :: '<' :: ((l ++ '@' :: d) ++ ['>']))] from rfl]
  rw [List.flatMap_cons]
  try dsimp only
  rw [show wsSplits (' ' :: '<' :: ((l ++ '@' :: d) ++ ['>'])) =
    ['<' :: ((l ++ '@' :: d) ++ ['>']), ' ' :: '<' :: ((l ++ '@' :: d) ++ ['>'])] from by
      unfold wsSplits
      have w1 : jsWhitespace ' ' = true := by decide
      have w2 : jsWhitespace '<' = false := by decide
      rw [List.takeWhile_cons, w1, if_pos rfl, List.takeWhile_cons, w2]
      simp only [Bool.false_eq_true, if_false]
      rw [show (List.range ((' ' :: ([] : List Char)).length + 1)).reverse = [1, 0] from by
        decide]
      rw [List.map_cons, List.map_cons, List.map_nil]
      rfl]
  rw [List.map_cons]
  simp only [List.cons_append]
  exact ⟨_, rfl⟩

theorem parseMatch_eval (name l d : List Char)
    (hnc : ∀ c ∈ name, nameChar c = true)
    (hl : l ≠ []) (hd : d ≠ [])
    (hlc : ∀ c ∈ l, emailChar c = true) (hdc : ∀ c ∈ d, emailChar c = true) :
    parseMatch ('"' :: (name ++ '"' :: ' ' :: '<' :: ((l ++ '@' :: d) ++ ['>']))) =
      some (some name, l ++ '@' :: d) := by
  obtain ⟨tail, htail⟩ := nameGroupChoices_head name l d hnc
  unfold parseMatch
  rw [htail, List.map_cons, List.findSome?_cons]
  rw [matchTail_eval l d hl hd hlc hdc]
  rfl

/-- C5 counterexample: for the address `{ email: "ab@cd" }` (no name),
`parseAddress(formatAddress(a))` returns `{ email: "b@cd", name: "a" }`:
the greedy optional display-name group of the parse regex steals a
prefix of the local part of a bare email, so the email field changes. -/
theorem parseAddress_roundtrip_counterexample :
    parseAddress (formatAddress { email := "ab@cd".toList, name := none }) =
      { email := "b@cd".toList, name := some ['a'] } ∧
    ({ email := "b@cd".toList, name := some ['a'] } : Address) ≠
      { email := "ab@cd".toList, name := none } := by
  constructor
  · decide
  · decide

/-- C5 (amended): the round trip `parseAddress ∘ formatAddress` is the
identity on addresses with a non-empty display name that is trimmed and
free of `"` and `<`, and an email of the shape `local@domain` with
`local` and `domain` non-empty and free of `>`, `@` and whitespace.
For an address without a display name the round trip can rewrite the
address (e.g. `ab@cd` comes back as name `a`, email `b@cd`). -/
theorem parseAddress_formatAddress_roundtrip (name l d : List Char)
    (hn : name ≠ [])
    (hnc : ∀ c ∈ name, nameChar c = true)
    (hnt : jsTrim name = name)
    (hl : l ≠ []) (hd : d ≠ [])
    (hlc : ∀ c ∈ l, emailChar c = true) (hdc : ∀ c ∈ d, emailChar c = true) :
    parseAddress (formatAddress { email := l ++ '@' :: d, name := some name }) =
      { email := l ++ '@' :: d, name := some name } := by
  have hfmt : formatAddress { email := l ++ '@' :: d, name := some name } =
      '"' :: (name ++ '"' :: ' ' :: '<' :: ((l ++ '@' :: d) ++ ['>'])) := by
    unfold formatAddress
    dsimp only
    rw [if_neg (by simp [hn])]
  have htrim : jsTrim ('"' :: (name ++ '"' :: ' ' :: '<' :: ((l ++ '@' :: d) ++ ['>']))) =
      '"' :: (name ++ '"' :: ' ' :: '<' :: ((l ++ '@' :: d) ++ ['>'])) := by
    have hW : '"' :: (name ++ '"' :: ' ' :: '<' :: ((l ++ '@' :: d) ++ ['>'])) =
        ('"' :: (name ++ '"' :: ' ' :: '<' :: (l ++ '@' :: d))) ++ ['>'] := by
      simp
    have e1 : ('"' :: (name ++ '"' :: ' ' :: '<' :: ((l ++ '@' :: d) ++ ['>']))).dropWhile
        jsWhitespace =
        '"' :: (name ++ '"' :: ' ' :: '<' :: ((l ++ '@' :: d) ++ ['>'])) := by
      rw [List.dropWhile_cons, if_neg (by decide)]
    have e2 : ('"' :: (name ++ '"' :: ' ' :: '<' :: ((l ++ '@' :: d) ++ ['>']))).reverse =
        '>' :: ('"' :: (name ++ '"' :: ' ' :: '<' :: (l ++ '@' :: d))).reverse := by
      rw [hW, List.reverse_append]
      rfl
    unfold jsTrim
    rw [e1, e2, List.dropWhile_cons, if_neg (by decide), ← e2, List.reverse_reverse]
  unfold parseAddress
  rw [hfmt, htrim, parseMatch_eval name l d hnc hl hd hlc hdc]
  dsimp only
  have hemail : jsTrim (l ++ '@' :: d) = l ++ '@' :: d := by
    apply jsTrim_all_non_ws
    intro c hc
    rcases List.mem_append.mp hc with h1 | h2
    · exact emailChar_not_ws c (hlc c h1)
    · rcases List.mem_cons.mp h2 with rfl | h3
      · decide
      · exact emailChar_not_ws c (hdc c h3)
  rw [hemail, hnt]
  rw [if_neg (by cases name with | nil => exact absurd rfl hn | cons a t => simp)]

/-- Witness for `parseAddress_formatAddress_roundtrip` at a concrete
well-formed address. -/
theorem parseAddress_formatAddress_roundtrip_witness :
    parseAddress (formatAddress
        { email := "john".toList ++ '@' :: "example.com".toList,
          name := some "John Doe".toList }) =
      { email := "john".toList ++ '@' :: "example.com".toList,
        name := some "John Doe".toList } :=
  parseAddress_formatAddress_roundtrip "John Doe".toList "john".toList
    "example.com".toList (by decide) (by decide) (by decide) (by decide) (by decide)
    (by decide) (by decide)

/-! ### htmlToText strips style and script blocks -/

theorem stripTagBlocks_nil (tag : List Char) : stripTagBlocks tag [] = [] := by
  rw [stripTagBlocks]

theorem tagBlockLen_none_of_not_lead (tag : List Char) (cs : List Char)
    (h : leadsCI ('<' :: tag) cs = false) : tagBlockLen tag cs = none := by
  unfold tagBlockLen
  rw [h]
  simp

theorem stripTagBlocks_cons_none (tag : List Char) (c : Char) (cs : List Char)
    (h : tagBlockLen tag (c :: cs) = none) :
    stripTagBlocks tag (c :: cs) = c :: stripTagBlocks tag cs := by
  rw [stripTagBlocks, h]

theorem stripTagBlocks_cons_some (tag : List Char) (c : Char) (cs : List Char) (n : Nat)
    (h : tagBlockLen tag (c :: cs) = some n) :
    stripTagBlocks tag (c :: cs) = stripTagBlocks tag (cs.drop (n - 1)) := by
  rw [stripTagBlocks, h]

/-- Characters of a region in which no match can start pass through the
scanner unchanged. -/
theorem stripTagBlocks_append (tag : List Char) :
    ∀ (a rest : List Char),
      (∀ p, p < a.length → leadsCI ('<' :: tag) ((a ++ rest).drop p) = false) →
      stripTagBlocks tag (a ++ rest) = a ++ stripTagBlocks tag rest
  | [], rest, _ => by simp
  | x :: a, rest, h => by
      have h0 : leadsCI ('<' :: tag) (x :: (a ++ rest)) = false := by
        have := h 0 (by simp)
        rwa [List.drop_zero, List.cons_append] at this
      rw [List.cons_append,
        stripTagBlocks_cons_none tag x (a ++ rest)
          (tagBlockLen_none_of_not_lead tag _ h0),
        stripTagBlocks_append tag a rest (fun p hp => by
          have := h (p + 1) (by simp; omega)
          rwa [List.cons_append, List.drop_succ_cons] at this)]
      rfl

theorem leadsCI_refl_append : ∀ (pat X : List Char),
    (∀ ch ∈ pat, lowerChar ch = ch) → leadsCI pat (pat ++ X) = true
  | [], _, _ => rfl
  | p :: ps, X, hpat => by
      rw [List.cons_append, leadsCI, hpat p (by simp),
        leadsCI_refl_append ps X (fun ch hch => hpat ch (by simp [hch]))]
      simp

/-- At a well-formed `<tag>body</tag>` block whose body's first closer
occurrence is at its end, the scanner finds a match of exactly the
block's length. -/
theorem tagBlockLen_block (tag c b : List Char) (htag : ∀ ch ∈ tag, lowerChar ch = ch)
    (hc : closerIdx ('<' :: '/' :: (tag ++ ['>']))
        (c ++ ('<' :: '/' :: (tag ++ ['>'])) ++ b) = some c.length) :
    tagBlockLen tag ('<' :: (tag ++ '>' :: (c ++ ('<' :: '/' :: (tag ++ ['>'])) ++ b))) =
      some (tag.length + 1 + 1 + c.length + (tag.length + 3)) := by
  have hlead : leadsCI ('<' :: tag)
      ('<' :: (tag ++ '>' :: (c ++ ('<' :: '/' :: (tag ++ ['>'])) ++ b))) = true := by
    rw [show '<' :: (tag ++ '>' :: (c ++ ('<' :: '/' :: (tag ++ ['>'])) ++ b)) =
      ('<' :: tag) ++ '>' :: (c ++ ('<' :: '/' :: (tag ++ ['>'])) ++ b) from by simp]
    exact leadsCI_refl_append ('<' :: tag) _ (by
      intro ch hch
      rcases List.mem_cons.mp hch with rfl | h2
      · decide
      · exact htag ch h2)
  have hdrop : ('<' :: (tag ++ '>' :: (c ++ ('<' :: '/' :: (tag ++ ['>'])) ++ b))).drop
      (tag.length + 1) = '>' :: (c ++ ('<' :: '/' :: (tag ++ ['>'])) ++ b) := by
    rw [show '<' :: (tag ++ '>' :: (c ++ ('<' :: '/' :: (tag ++ ['>'])) ++ b)) =
      ('<' :: tag) ++ '>' :: (c ++ ('<' :: '/' :: (tag ++ ['>'])) ++ b) from by simp]
    rw [show tag.length + 1 = ('<' :: tag).length from by simp]
    exact List.drop_left _ _
  have htw : ('>' :: (c ++ ('<' :: '/' :: (tag ++ ['>'])) ++ b)).takeWhile
      (fun x => x ≠ '>') = [] := by
    rw [List.takeWhile_cons]
    simp
  unfold tagBlockLen
  rw [hlead, if_pos rfl, hdrop, htw]
  show (match ('>' :: (c ++ ('<' :: '/' :: (tag ++ ['>'])) ++ b)).drop 0 with
    | '>' :: rest2 =>
        match closerIdx ('<' :: '/' :: (tag ++ ['>'])) rest2 with
        | some i =>
            some (tag.length + 1 + ([] : List Char).length + 1 + i + (tag.length + 3))
        | none => none
    | _ => none) = some (tag.length + 1 + 1 + c.length + (tag.length + 3))
  rw [List.drop_zero]
  show (match closerIdx ('<' :: '/' :: (tag ++ ['>']))
      (c ++ ('<' :: '/' :: (tag ++ ['>'])) ++ b) with
    | some i =>
        some (tag.length + 1 + ([] : List Char).length + 1 + i + (tag.length + 3))
    | none => none) = some (tag.length + 1 + 1 + c.length + (tag.length + 3))
  rw [hc]
  simp

theorem stripTagBlocks_block (tag c b : List Char)
    (htag : ∀ ch ∈ tag, lowerChar ch = ch)
    (hc : closerIdx ('<' :: '/' :: (tag ++ ['>']))
        (c ++ ('<' :: '/' :: (tag ++ ['>'])) ++ b) = some c.length) :
    stripTagBlocks tag
        ('<' :: (tag ++ '>' :: (c ++ ('<' :: '/' :: (tag ++ ['>'])) ++ b))) =
      stripTagBlocks tag b := by
  rw [stripTagBlocks_cons_some tag '<' _ _ (tagBlockLen_block tag c b htag hc)]
  congr 1
  rw [show tag.length + 1 + 1 + c.length + (tag.length + 3) - 1 =
    (tag.length + 1) + (c.length + (tag.length + 3)) from by omega]
  rw [← List.drop_drop]
  rw [show tag ++ '>' :: (c ++ ('<' :: '/' :: (tag ++ ['>'])) ++ b) =
    (tag ++ ['>']) ++ (c ++ (('<' :: '/' :: (tag ++ ['>'])) ++ b)) from by simp]
  rw [show tag.length + 1 = (tag ++ ['>']).length from by simp]
  rw [List.drop_left]
  rw [← List.drop_drop]
  rw [List.drop_left' (by rfl : (c : List Char).length = c.length)]
  rw [show tag.length + 3 = ('<' :: '/' :: (tag ++ ['>'])).length from by simp]
  rw [List.drop_left]

theorem stripTagBlocks_id (tag X : List Char)
    (h : ∀ p, p < X.length → leadsCI ('<' :: tag) (X.drop p) = false) :
    stripTagBlocks tag X = X := by
  have h2 := stripTagBlocks_append tag X []
    (fun p hp => by rw [List.append_nil]; exact h p hp)
  rwa [List.append_nil, stripTagBlocks_nil, List.append_nil] at h2

theorem stripTagBlocks_erases (tag a c b : List Char)
    (htag : ∀ ch ∈ tag, lowerChar ch = ch)
    (h1 : ∀ p, p < a.length → leadsCI ('<' :: tag)
      ((a ++ ('<' :: (tag ++ '>' :: (c ++ ('<' :: '/' :: (tag ++ ['>'])) ++ b)))).drop p) =
        false)
    (h2 : ∀ p, p < a.length → leadsCI ('<' :: tag) ((a ++ b).drop p) = false)
    (hc : closerIdx ('<' :: '/' :: (tag ++ ['>']))
        (c ++ ('<' :: '/' :: (tag ++ ['>'])) ++ b) = some c.length) :
    stripTagBlocks tag
        (a ++ ('<' :: (tag ++ '>' :: (c ++ ('<' :: '/' :: (tag ++ ['>'])) ++ b)))) =
      stripTagBlocks tag (a ++ b) := by
  rw [stripTagBlocks_append tag a _ h1, stripTagBlocks_block tag c b htag hc,
    ← stripTagBlocks_append tag a b h2]

/-- On overlapping malformed markup the content of a script block that
appeared in the input survives to the output.  The input decomposes as
a prefix followed by a complete script block — opener, body, closer,
exactly what the lazy script pattern matches there — and `PART2` is
part of that block's body; yet `htmlToText` returns exactly `PART2`.
The style pass runs first and consumes `<style>junk<script>PART1`
together with the `</style>` closer sitting inside the script block's
body, destroying the script opener, so the script pass finds nothing. -/
theorem htmlToText_script_content_survives :
    "<style>junk<script>PART1</style>PART2</script>".toList =
      "<style>junk".toList ++
        ("<script>".toList ++ "PART1</style>PART2".toList ++ "</script>".toList) ∧
    "PART1</style>PART2".toList = "PART1</style>".toList ++ "PART2".toList ∧
    htmlToText "<style>junk<script>PART1</style>PART2</script>".toList =
      "PART2".toList := by
  refine ⟨by decide, by decide, ?_⟩
  have hstyle : stripTagBlocks "style".toList
      "<style>junk<script>PART1</style>PART2</script>".toList =
      "PART2</script>".toList := by
    have hshape : "<style>junk<script>PART1</style>PART2</script>".toList =
        '<' :: ("style".toList ++ '>' ::
          ("junk<script>PART1".toList ++ ('<' :: '/' :: ("style".toList ++ ['>'])) ++
            "PART2</script>".toList)) := by decide
    rw [hshape, stripTagBlocks_block "style".toList "junk<script>PART1".toList
      "PART2</script>".toList (by decide) (by decide)]
    exact stripTagBlocks_id "style".toList _ (by decide)
  have hscript : stripTagBlocks "script".toList "PART2</script>".toList =
      "PART2</script>".toList :=
    stripTagBlocks_id "script".toList _ (by decide)
  unfold htmlToText
  rw [hstyle, hscript]
  simp [replaceBr, brMatchLen, replaceAllCI, leadsCI, lowerChar, replaceOpenLi,
    liMatchLen, stripTags, tagMatchLen, replaceAll, replaceNumEntities, numEntityLen,
    collapseNewlines, jsTrim, jsWhitespace]

/-- C8, amended: `htmlToText` is a total function (the embedding
terminates on every input, as the source never throws), and a complete
`<style>…</style>` or `<script>…</script>` block that does not overlap
any other style or script block is erased together with its entire
content: the output equals the output on the input with the whole
block deleted, for ANY block body `c` that does not contain an early
closing tag.  The side conditions express non-overlap: no other
case-insensitive `<style` (resp. `<script`) occurrence starts inside
`a`, so that the designated block is the one the global leftmost-match
replacement consumes; for the script case additionally no `<style`
occurs anywhere, because the style pass runs first and an overlapping
style match can consume the script opener; and the first closer
occurrence after the opening tag is the block's own closer.  Without
these conditions erasure fails on overlapping malformed markup. -/
theorem htmlToText_strips_style_script_blocks :
    (∀ a c b : List Char,
      (∀ p, p < a.length → leadsCI ('<' :: "style".toList)
        ((a ++ ("<style>".toList ++ c ++ "</style>".toList ++ b)).drop p) = false) →
      (∀ p, p < a.length →
        leadsCI ('<' :: "style".toList) ((a ++ b).drop p) = false) →
      closerIdx "</style>".toList (c ++ "</style>".toList ++ b) = some c.length →
      htmlToText (a ++ ("<style>".toList ++ c ++ "</style>".toList ++ b)) =
        htmlToText (a ++ b)) ∧
    (∀ a c b : List Char,
      (∀ p, p < (a ++ ("<script>".toList ++ c ++ "</script>".toList ++ b)).length →
        leadsCI ('<' :: "style".toList)
          ((a ++ ("<script>".toList ++ c ++ "</script>".toList ++ b)).drop p) = false) →
      (∀ p, p < (a ++ b).length →
        leadsCI ('<' :: "style".toList) ((a ++ b).drop p) = false) →
      (∀ p, p < a.length → leadsCI ('<' :: "script".toList)
        ((a ++ ("<script>".toList ++ c ++ "</script>".toList ++ b)).drop p) = false) →
      (∀ p, p < a.length →
        leadsCI ('<' :: "script".toList) ((a ++ b).drop p) = false) →
      closerIdx "</script>".toList (c ++ "</script>".toList ++ b) = some c.length →
      htmlToText (a ++ ("<script>".toList ++ c ++ "</script>".toList ++ b)) =
        htmlToText (a ++ b)) := by
  constructor
  · intro a c b h1 h2 hc
    have hshape : "<style>".toList ++ c ++ "</style>".toList ++ b =
        '<' :: ("style".toList ++ '>' ::
          (c ++ ('<' :: '/' :: ("style".toList ++ ['>'])) ++ b)) := by
      show ['<', 's', 't', 'y', 'l', 'e', '>'] ++ c ++
        ['<', '/', 's', 't', 'y', 'l', 'e', '>'] ++ b = _
      simp
    have hc' : closerIdx ('<' :: '/' :: ("style".toList ++ ['>']))
        (c ++ ('<' :: '/' :: ("style".toList ++ ['>'])) ++ b) = some c.length := hc
    have key : stripTagBlocks "style".toList
        (a ++ ("<style>".toList ++ c ++ "</style>".toList ++ b)) =
        stripTagBlocks "style".toList (a ++ b) := by
      rw [hshape]
      exact stripTagBlocks_erases "style".toList a c b (by decide)
        (fun p hp => by rw [← hshape]; exact h1 p hp) h2 hc'
    unfold htmlToText
    rw [key]
  · intro a c b hs1 hs2 h1 h2 hc
    have hshape : "<script>".toList ++ c ++ "</script>".toList ++ b =
        '<' :: ("script".toList ++ '>' ::
          (c ++ ('<' :: '/' :: ("script".toList ++ ['>'])) ++ b)) := by
      show ['<', 's', 'c', 'r', 'i', 'p', 't', '>'] ++ c ++
        ['<', '/', 's', 'c', 'r', 'i', 'p', 't', '>'] ++ b = _
      simp
    have hc' : closerIdx ('<' :: '/' :: ("script".toList ++ ['>']))
        (c ++ ('<' :: '/' :: ("script".toList ++ ['>'])) ++ b) = some c.length := hc
    have key : stripTagBlocks "script".toList
        (a ++ ("<script>".toList ++ c ++ "</script>".toList ++ b)) =
        stripTagBlocks "script".toList (a ++ b) := by
      rw [hshape]
      exact stripTagBlocks_erases "script".toList a c b (by decide)
        (fun p hp => by rw [← hshape]; exact h1 p hp) h2 hc'
    unfold htmlToText
    rw [stripTagBlocks_id "style".toList _ hs1, stripTagBlocks_id "style".toList _ hs2,
      key]

/-- Witness for `htmlToText_strips_style_script_blocks` at concrete
blocks. -/
theorem htmlToText_strips_style_script_blocks_witness :
    htmlToText ("Hi ".toList ++
        ("<style>".toList ++ ".x{color:red}".toList ++ "</style>".toList ++
          "ok".toList)) =
      htmlToText ("Hi ".toList ++ "ok".toList) ∧
    htmlToText ("A".toList ++
        ("<script>".toList ++ "alert(1)".toList ++ "</script>".toList ++
          "B".toList)) =
      htmlToText ("A".toList ++ "B".toList) :=
  ⟨htmlToText_strips_style_script_blocks.1 "Hi ".toList ".x{color:red}".toList
      "ok".toList (by decide) (by decide) (by decide),
    htmlToText_strips_style_script_blocks.2 "A".toList "alert(1)".toList "B".toList
      (by decide) (by decide) (by decide) (by decide) (by decide)⟩

/-- Witness for `base64url_round_trip` on a concrete encoded character. -/
theorem base64url_round_trip_witness :
    ('Y' ≠ '+' ∧ 'Y' ≠ '/' ∧ 'Y' ≠ '=') ∧
      decodeBase64Url (encodeBase64Url ['H', 'i']) = ['H', 'i'] :=
  ⟨base64url_round_trip.2 ['a'] 'Y' (by decide),
    base64url_round_trip.1 ['H', 'i']⟩

end Faktoor
